/-
Verification of the SQLite note DAO (`NoteDAO`) of the zk note indexer.

The Go source (adapter/sqlite note DAO) is shallowly embedded below:
  * the SQLite tables (`notes`, `links`, `collections`, `notes_collections`)
    become lists of records inside a `Store` structure;
  * each prepared statement / DAO method becomes a pure Lean function on
    `Store` (fallible operations return `Except String _`, mirroring Go's
    `error` returns);
  * SQL `LIKE x || '%'` prefix tests are modelled with `String.isPrefixOf`
    (hrefs and paths are treated literally, without LIKE wildcards or
    ASCII case folding);
  * JSON round-tripping of the metadata map is modelled as the identity on
    a structured `Metadata` value (the DAO serializes on write and parses
    the same data back on read);
  * the recursive CTE `transitive_closure` becomes an executable
    fuelled breadth-first path enumeration with the same per-path cycle
    guard (`tc.path NOT LIKE '%.' || l.target_id || '.%'`) and the same
    `tc.distance < maxDistance` bound;
  * GLOB matching of tag patterns is delegated by the code to SQLite, so
    the query model is parameterised by an abstract matcher
    `globMatch : String → String → Bool`;
  * full-text (FTS5) matching and ICU path regexes are external
    capabilities: the row model treats them as row-preserving (they only
    affect ranking/snippets for the properties considered here), while the
    ORDER BY construction is modelled exactly, at the string level.
-/
import Mathlib

namespace ZkSqlite

/-! ## String primitives

The Go/SQL string operations the DAO uses, embedded over `String.data`
(the character list) so that every definition evaluates by kernel
reduction. -/

/-- SQL `s LIKE p || '%'` and Go `strings.HasPrefix(s, p)`: `p` is a
literal prefix of `s`.  LIKE wildcard characters and SQLite's ASCII case
folding are not modelled; hrefs and paths are taken literally. -/
def likePrefix (p s : String) : Bool := p.data.isPrefixOf s.data

/-- Go `strings.HasPrefix(s, pre)`. -/
def hasPrefix (s pre : String) : Bool := pre.data.isPrefixOf s.data

/-- Dropping the first `n` characters of a string (Go slicing, as done by
`strings.TrimPrefix` once the prefix is known present). -/
def strDrop (s : String) (n : Nat) : String := String.mk (s.data.drop n)

/-- ASCII whitespace (Go `strings.TrimSpace` also folds Unicode spaces;
the paths and tags considered here are ASCII). -/
def isSpaceChar (c : Char) : Bool := c == ' ' || c == '\t' || c == '\n' || c == '\r'

/-- Leading whitespace removed from a character list. -/
def dropLeadingSpace : List Char → List Char
  | [] => []
  | c :: cs => if isSpaceChar c then dropLeadingSpace cs else c :: cs

/-- Go `strings.TrimSpace`: leading and trailing whitespace removed. -/
def trimSpace (s : String) : String :=
  String.mk ((dropLeadingSpace (dropLeadingSpace s.data).reverse).reverse)

/-- Whether a string holds the given character. -/
def strContains (s : String) (c : Char) : Bool := s.data.contains c

/-- `strings.ReplaceAll(path, "/", "\x01")`: the sortable path (the
separator replaced by the lowest printable-sorting character). -/
def sortablePathOf (path : String) : String :=
  String.mk (path.data.map fun c => if c == '/' then Char.ofNat 1 else c)

/-! ## Metadata values

The Go code stores note metadata as `map[string]interface{}` serialized to
JSON.  We embed the JSON-representable values as a tagged union. -/

inductive MetaValue where
  | str (s : String)
  | num (n : Int)
  | boolean (b : Bool)
  | list (xs : List MetaValue)
  | table (xs : List (String × MetaValue))
deriving Repr, BEq, Inhabited

/-- A metadata map: association list from keys to values. -/
abbrev Metadata := List (String × MetaValue)

mutual

/-- Model of Go `fmt.Sprint` on a decoded JSON value, as used on alias
entries in `expandMentionsIntoMatch`.  Only the string case is exercised by
the spec; the other cases follow Go's `%v` formatting shape. -/
def metaSprint : MetaValue → String
  | .str s => s
  | .num n => toString n
  | .boolean b => if b then "true" else "false"
  | .list xs => "[" ++ String.intercalate " " (metaSprintList xs) ++ "]"
  | .table xs => "map[" ++ String.intercalate " " (metaSprintPairs xs) ++ "]"

/-- `fmt.Sprint` mapped over the elements of a JSON array. -/
def metaSprintList : List MetaValue → List String
  | [] => []
  | x :: xs => metaSprint x :: metaSprintList xs

/-- `fmt.Sprint` mapped over the entries of a JSON object. -/
def metaSprintPairs : List (String × MetaValue) → List String
  | [] => []
  | (k, v) :: xs => (k ++ ":" ++ metaSprint v) :: metaSprintPairs xs

end

/-! ## Core records

`note.Metadata` (the parsed note handed to the DAO) and the rows of the
`notes` and `links` tables. -/

/-- An authored outbound link of a note (`note.Link`). -/
structure AuthoredLink where
  title : String
  href : String
  external : Bool
  rels : List String
  snippet : String
  snippetStart : Nat
  snippetEnd : Nat
deriving Repr, BEq, DecidableEq, Inhabited

/-- The parsed note metadata passed to `Add` / `Update` (`note.Metadata`). -/
structure NoteMeta where
  path : String
  title : String
  lead : String
  body : String
  rawContent : String
  wordCount : Nat
  links : List AuthoredLink
  tags : List String
  metadata : Metadata
  created : Nat
  modified : Nat
  checksum : String
deriving Repr, BEq, Inhabited

/-- A row of the `notes` table.  `id` is the SQLite rowid; `core.NoteId 0`
is the invalid id, so real ids start at 1. -/
structure StoredNote where
  id : Nat
  path : String
  sortablePath : String
  title : String
  lead : String
  body : String
  rawContent : String
  wordCount : Nat
  metadata : Metadata
  checksum : String
  created : Nat
  modified : Nat
deriving Repr, BEq, Inhabited

/-- A row of the `links` table.  `targetId = none` models a NULL
`target_id` (an unresolved link). -/
structure StoredLink where
  sourceId : Nat
  targetId : Option Nat
  title : String
  href : String
  external : Bool
  rels : String
  snippet : String
  snippetStart : Nat
  snippetEnd : Nat
deriving Repr, BEq, DecidableEq, Inhabited

/-- A row of the `collections` table (only tag collections matter here). -/
structure Collection where
  id : Nat
  kind : String
  name : String
deriving Repr, BEq, DecidableEq, Inhabited

/-- The database state visible to the DAO: the `notes` and `links` tables
(in rowid order), the tag collections, the `notes_collections`
associations, and the next fresh rowid. -/
structure Store where
  notes : List StoredNote
  links : List StoredLink
  collections : List Collection
  notesCollections : List (Nat × Nat)
  nextId : Nat
deriving Repr, BEq, Inhabited

/-- The empty database.  SQLite rowids start at 1. -/
def Store.empty : Store := ⟨[], [], [], [], 1⟩

/-! ## Id lookup (`idForRow`, `findIdByPath`, `findIdByPathPrefix`) -/

/-- A note id; `0` is the invalid id (`core.NoteId.IsValid` is `id > 0`). -/
abbrev NoteId := Nat

def NoteId.isValid (id : NoteId) : Bool := id != 0

/-- The outcome of scanning a single-row query (`sql.Row.Scan`): either no
row matched (`sql.ErrNoRows`), an underlying database failure, or a scanned
nullable integer. -/
inductive ScanResult where
  | noRows
  | dbError (msg : String)
  | value (id : Option Int)
deriving Repr, BEq

/-- `idForRow`: absorbs `sql.ErrNoRows` into the invalid id, propagates
any other error, and otherwise converts the nullable column
(`sql.NullInt64` reads as 0 when NULL). -/
def idForRow : ScanResult → Except String NoteId
  | .noRows => .ok 0
  | .dbError msg => .error msg
  | .value none => .ok 0
  | .value (some i) => .ok i.toNat

/-- `findIdByPath`: `SELECT id FROM notes WHERE path = ?`, first row. -/
def Store.findIdByPath (s : Store) (path : String) : NoteId :=
  match s.notes.find? (fun n => n.path == path) with
  | none => 0
  | some n => n.id

/-- `findIdByPathPrefix`: `SELECT id FROM notes WHERE path LIKE ? || '%'`,
first row in table order. -/
def Store.findIdByPathPrefix (s : Store) (path : String) : NoteId :=
  match s.notes.find? (fun n => likePrefix path n.path) with
  | none => 0
  | some n => n.id

/-- `findIdsByPathPrefixes`: resolves each path, keeping only valid ids. -/
def Store.findIdsByPathPrefixes (s : Store) (paths : List String) : List NoteId :=
  paths.foldl (fun ids p =>
    let id := s.findIdByPathPrefix p
    if id.isValid then ids ++ [id] else ids) []

/-! ## Write path (`Add`, `Update`, `addLinks`) -/

/-- `joinLinkRels`: concatenates rels delimited (and surrounded) by
`\x01`, or the empty string for no rels. -/
def joinLinkRels (rels : List String) : String :=
  if rels.length = 0 then ""
  else
    let delimiter := "\x01"
    delimiter ++ String.intercalate delimiter rels ++ delimiter

/-- `idToSql`: an invalid id becomes SQL NULL. -/
def idToSql (id : NoteId) : Option Nat :=
  if id.isValid then some id else none

/-- The row inserted by `addLinkStmt` for one authored link: the target is
resolved by path-prefix lookup against the current store (NULL when
unresolved). -/
def addLinkRow (s : Store) (id : NoteId) (link : AuthoredLink) : StoredLink :=
  let targetId := s.findIdByPathPrefix link.href
  { sourceId := id
    targetId := idToSql targetId
    title := link.title
    href := link.href
    external := link.external
    rels := joinLinkRels link.rels
    snippet := link.snippet
    snippetStart := link.snippetStart
    snippetEnd := link.snippetEnd }

/-- `addLinkStmt.Exec`: append the resolved row to the `links` table. -/
def Store.insertLink (s : Store) (id : NoteId) (link : AuthoredLink) : Store :=
  { s with links := s.links ++ [addLinkRow s id link] }

/-- `setLinksTargetStmt`: `UPDATE links SET target_id = ? WHERE target_id
IS NULL AND external = 0 AND ? LIKE href || '%'` — heal every unresolved
non-external link whose href is a prefix of the new note's path. -/
def Store.setLinksTarget (s : Store) (id : NoteId) (path : String) : Store :=
  { s with links := s.links.map fun l =>
      if l.targetId == none && !l.external && likePrefix l.href path
      then { l with targetId := some id } else l }

/-- `addLinks`: insert each outbound link of the note (resolving its
target by path prefix), then run the backfill pass healing unresolved
links that point at the note's path. -/
def Store.addLinks (s : Store) (id : NoteId) (note : NoteMeta) : Store :=
  let s := note.links.foldl (fun s l => s.insertLink id l) s
  s.setLinksTarget id note.path

/-- `Add`: insert the note row (with the `/`→`\x01` sortable path), then
its links; returns the new store and the fresh id. -/
def Store.add (s : Store) (note : NoteMeta) : Store × NoteId :=
  let sortablePath := sortablePathOf note.path
  let id := s.nextId
  let row : StoredNote := {
    id := id
    path := note.path
    sortablePath := sortablePath
    title := note.title
    lead := note.lead
    body := note.body
    rawContent := note.rawContent
    wordCount := note.wordCount
    metadata := note.metadata
    checksum := note.checksum
    created := note.created
    modified := note.modified }
  let s := { s with notes := s.notes ++ [row], nextId := s.nextId + 1 }
  (s.addLinks id note, id)

/-- `updateStmt`: `UPDATE notes SET title = ?, lead = ?, body = ?,
raw_content = ?, word_count = ?, metadata = ?, checksum = ?, modified = ?
WHERE path = ?`. -/
def Store.execUpdateStmt (s : Store) (note : NoteMeta) : Store :=
  { s with notes := s.notes.map fun n =>
      if n.path == note.path then
        { n with
          title := note.title
          lead := note.lead
          body := note.body
          rawContent := note.rawContent
          wordCount := note.wordCount
          metadata := note.metadata
          checksum := note.checksum
          modified := note.modified }
      else n }

/-- `removeLinksStmt`: `DELETE FROM links WHERE source_id = ?`. -/
def Store.removeLinks (s : Store) (id : NoteId) : Store :=
  { s with links := s.links.filter fun l => !(l.sourceId == id) }

/-- `Update`: fails when the path is not indexed; otherwise updates the
note row, deletes all its outbound links and re-adds fresh ones. -/
def Store.update (s : Store) (note : NoteMeta) : Except String (Store × NoteId) :=
  let id := s.findIdByPath note.path
  if !id.isValid then .error "note not found in the index"
  else
    let s := s.execUpdateStmt note
    let s := s.removeLinks id
    .ok (s.addLinks id note, id)

/-! ## FinderOpts (`note.FinderOpts`)

The filter criteria handed to `Find`.  Optional slices/values become
`Option`s (`none` = Go `nil` / null `opt.String`). -/

/-- A link filter (`note.LinkedByFilter` / `note.LinkToFilter`):
target paths, negation, recursive closure and its distance bound
(0 = unbounded). -/
structure LinkFilter where
  paths : List String
  negate : Bool
  recursive : Bool
  maxDistance : Nat
deriving Repr, BEq, DecidableEq, Inhabited

/-- `note.SortField`. -/
inductive SortField where
  | created
  | modified
  | path
  | random
  | title
  | wordCount
deriving Repr, BEq, DecidableEq, Inhabited

/-- `note.Sorter`: a sort field and its direction. -/
structure Sorter where
  field : SortField
  ascending : Bool
deriving Repr, BEq, DecidableEq, Inhabited

/-- `note.FinderOpts`. -/
structure FinderOpts where
  matchExpr : Option String := none
  includePaths : Option (List String) := none
  excludePaths : Option (List String) := none
  excludeIds : Option (List NoteId) := none
  tags : Option (List String) := none
  linkedBy : Option LinkFilter := none
  linkTo : Option LinkFilter := none
  related : Option (List String) := none
  orphan : Bool := false
  createdStart : Option Nat := none
  createdEnd : Option Nat := none
  modifiedStart : Option Nat := none
  modifiedEnd : Option Nat := none
  sorters : List Sorter := []
  mention : Option (List String) := none
  limit : Nat := 0
deriving Repr, BEq, Inhabited

/-! ## Mention expansion (`expandMentionsIntoMatch`) -/

/-- `strings.ReplaceAll(t, "\"", "")`: drop every double quote of `t`
(single-character pattern, empty replacement). -/
def removeQuotes (t : String) : String :=
  String.mk (t.data.filter fun c => !(c == '"'))

/-- `appendTitle`'s quoting: strip the double quotes, then wrap the result
in double quotes. -/
def quoteTitle (t : String) : String :=
  "\"" ++ removeQuotes t ++ "\""

/-- The quoted titles contributed by one row of the titles query: the
note's title, then its aliases (an `aliases` metadata value that is a JSON
array contributes each element printed with `fmt.Sprint`; a plain string
contributes itself; any other shape is ignored). -/
def rowTitles (n : StoredNote) : List String :=
  quoteTitle n.title ::
    (match n.metadata.lookup "aliases" with
     | some (.list xs) => xs.map fun a => quoteTitle (metaSprint a)
     | some (.str a) => [quoteTitle a]
     | _ => [])

/-- `expandMentionsIntoMatch`: resolve the mentioned paths, extend the
exclude-id set with the resolved ids, and AND the match expression with an
OR group of the resolved notes' quoted titles and aliases.  Fails when no
mentioned path resolves to an indexed note. -/
def expandMentionsIntoMatch (s : Store) (opts : FinderOpts) :
    Except String FinderOpts :=
  let notFoundErr :=
    "could not find notes at: " ++ String.intercalate "," (opts.mention.getD [])
  match opts.mention with
  | none => .ok opts
  | some mention =>
    let ids := Store.findIdsByPathPrefixes s mention
    if ids.isEmpty then .error notFoundErr
    else
      let opts := { opts with
        excludeIds :=
          match opts.excludeIds with
          | none => some ids
          | some ex => some (ex ++ ids) }
      -- `SELECT title, metadata FROM notes WHERE id IN (…)`, table order.
      let rows := s.notes.filter fun n => ids.contains n.id
      let titles := rows.flatMap rowTitles
      if titles.isEmpty then .error notFoundErr
      else
        let m := opts.matchExpr.getD "" ++
          " (" ++ String.intercalate " OR " titles ++ ")"
        .ok { opts with matchExpr := some m }

/-! ## The recursive CTE `transitive_closure`

The CTE enumerates one row per directed link path: the base case is the
`links` table itself (distance 1, path `'.s.t.'`); the recursive case
extends a row by a link leaving its target, guarded by
`tc.path NOT LIKE '%.' || l.target_id || '.%'` (the new target must not
already occur on the path) and, when `maxDistance ≠ 0`, by
`tc.distance < maxDistance`.  Rows whose `target_id` is NULL are dead in
the CTE (a NULL never joins and its path is NULL), and every consumer
filters `target_id IS NOT NULL`, so the model builds the closure over the
resolved links only.  The `LIMIT 100000` runaway guard is not modelled:
the cycle guard already makes the row set finite. -/

/-- A row of the `transitive_closure` CTE (source, target, distance, and
the id path from source to target). -/
structure TCRow where
  source : Nat
  target : Nat
  distance : Nat
  path : List Nat
deriving Repr, BEq, DecidableEq, Inhabited

/-- One application of the CTE's recursive case to one row: every link
leaving the row's target whose target is not yet on the path, subject to
the distance bound (`maxDistance = 0` is unbounded). -/
def tcExtend (links : List (Nat × Nat)) (maxDistance : Nat) (r : TCRow) :
    List TCRow :=
  links.filterMap fun l =>
    if l.1 == r.target && !(r.path.contains l.2) &&
        (maxDistance == 0 || r.distance < maxDistance)
    then some ⟨r.source, l.2, r.distance + 1, r.path ++ [l.2]⟩
    else none

/-- Fuelled rounds of the recursive case: all rows produced from the given
frontier.  Each round lengthens every path by one, and paths cannot
revisit ids, so any fuel past the number of graph nodes is enough. -/
def tcRounds (links : List (Nat × Nat)) (maxDistance : Nat) :
    Nat → List TCRow → List TCRow
  | 0, frontier => frontier
  | fuel + 1, frontier =>
    let next := frontier.flatMap (tcExtend links maxDistance)
    frontier ++ (if next.isEmpty then [] else tcRounds links maxDistance fuel next)

/-- All rows of the `transitive_closure` CTE over the given resolved
links. -/
def transitiveClosureRows (links : List (Nat × Nat)) (maxDistance : Nat) :
    List TCRow :=
  let base := links.map fun l => TCRow.mk l.1 l.2 1 [l.1, l.2]
  tcRounds links maxDistance (2 * links.length + 2) base

/-! ## Link filters (`setupLinkFilter`) -/

/-- The resolved rows of the `links` table: `(source_id, target_id)` of
every link with a non-NULL target. -/
def resolvedLinks (links : List StoredLink) : List (Nat × Nat) :=
  links.filterMap fun l => l.targetId.map fun t => (l.sourceId, t)

/-- A row of the links source `l` used by a link filter: the raw `links`
table (distance 1) or the `transitive_closure` CTE. -/
structure LinkRow where
  source : Nat
  target : Option Nat
  distance : Nat
deriving Repr, BEq, DecidableEq, Inhabited

/-- The rows of the filter's links source: `links` itself, or the
transitive closure when the filter is recursive. -/
def linkSourceRows (s : Store) (recursive : Bool) (maxDistance : Nat) :
    List LinkRow :=
  if recursive then
    (transitiveClosureRows (resolvedLinks s.links) maxDistance).map fun r =>
      ⟨r.source, some r.target, r.distance⟩
  else
    s.links.map fun l => ⟨l.sourceId, l.targetId, 1⟩

/-- The id-set membership test of `setupLinkFilter`'s WHERE expression:
`n.id IN (SELECT target_id FROM l WHERE target_id IS NOT NULL AND
source_id IN ids UNION SELECT source_id FROM l WHERE target_id IS NOT NULL
AND target_id IN ids)`, each branch present according to the direction
(≤ 0 selects targets of the seeds, ≥ 0 selects sources into the seeds). -/
def linkIdSelectContains (rows : List LinkRow) (ids : List NoteId)
    (direction : Int) (n : Nat) : Bool :=
  (decide (direction ≤ 0) &&
    rows.any fun r => r.target == some n && ids.contains r.source) ||
  (decide (direction ≥ 0) &&
    rows.any fun r =>
      r.source == n && (match r.target with
        | some t => ids.contains t
        | none => false))

/-- Whether note `n` passes a linkedBy/linkTo filter: the filter's target
paths are resolved to seed ids first; an empty seed set adds no WHERE
expression at all (every note passes); otherwise `n` must (or, negated,
must not) be in the filter's id select. -/
def linkFilterPasses (s : Store) (filterPaths : List String) (direction : Int)
    (negate recursive : Bool) (maxDistance : Nat) (n : Nat) : Bool :=
  let ids := Store.findIdsByPathPrefixes s filterPaths
  if ids.isEmpty then true
  else
    let rows := linkSourceRows s recursive maxDistance
    let inSet := linkIdSelectContains rows ids direction n
    if negate then !inSet else inSet

/-- SQL `MIN` over a group of values: `none` on the empty group. -/
def sqlMin : List Nat → Option Nat
  | [] => none
  | d :: ds =>
    match sqlMin ds with
    | none => some d
    | some m => some (Nat.min d m)

/-- The join rows of the Related filter for note `n`: the `LEFT JOIN
transitive_closure l ON (n.id = l.target_id AND l.source_id IN ids) OR
(n.id = l.source_id AND l.target_id IN ids)` rows, over the closure with
the fixed distance bound 2. -/
def relatedJoinRows (s : Store) (ids : List NoteId) (n : Nat) : List TCRow :=
  (transitiveClosureRows (resolvedLinks s.links) 2).filter fun r =>
    (r.target == n && ids.contains r.source) ||
    (r.source == n && ids.contains r.target)

/-- Whether note `n` passes the Related filter with (non-empty) resolved
seed ids: the WHERE id select (direction 0, recursive, bound 2) together
with `HAVING MIN(l.distance) = 2` over the join rows. -/
def relatedPasses (s : Store) (ids : List NoteId) (n : Nat) : Bool :=
  let rows := linkSourceRows s true 2
  linkIdSelectContains rows ids 0 n &&
    sqlMin ((relatedJoinRows s ids n).map TCRow.distance) == some 2

/-! ## Tag filters -/

/-- Splitting one tag argument on the separator regex `(\ OR\ )|\|`:
either a literal `" OR "` or a `|`. -/
def splitTagSeps : List Char → List (List Char)
  | [] => [[]]
  | '|' :: rest => [] :: splitTagSeps rest
  | ' ' :: 'O' :: 'R' :: ' ' :: rest => [] :: splitTagSeps rest
  | c :: rest =>
    match splitTagSeps rest with
    | [] => [[c]]
    | g :: gs => (c :: g) :: gs

/-- A compiled tag OR-group: its glob patterns and whether the group is
negated. -/
structure TagGroup where
  negate : Bool
  globs : List String
deriving Repr, BEq, DecidableEq, Inhabited

/-- Processing of one tag OR-group: split it on `" OR "`/`|`; trim each
pattern; a leading `-` or `NOT` marks the whole group negated and is
stripped; empty patterns are skipped.  `none` when no pattern remains (the
loop `continue`s to the next group). -/
def compileTagGroup (tagsArg : String) : Option TagGroup :=
  let tags := (splitTagSeps tagsArg.data).map String.mk
  let step := fun (acc : Bool × List String) (tag : String) =>
    let tag := trimSpace tag
    let negate := acc.1 || hasPrefix tag "-" || hasPrefix tag "NOT"
    let tag :=
      if hasPrefix tag "-" then strDrop tag 1
      else if hasPrefix tag "NOT" then strDrop tag 3
      else tag
    let tag := trimSpace tag
    if tag.data.isEmpty then (negate, acc.2)
    else (negate, acc.2 ++ [tag])
  let r := tags.foldl step (false, [])
  if r.2.isEmpty then none else some ⟨r.1, r.2⟩

/-- Compilation of all tag arguments (the `for _, tagsArg := range
opts.Tags` loop): a group with no pattern is skipped; a negated group
holding more than one pattern is an invalid query. -/
def compileTagFilters (tagsArgs : List String) (acc : List TagGroup) :
    Except String (List TagGroup) :=
  match tagsArgs with
  | [] => .ok acc
  | tagsArg :: rest =>
    match compileTagGroup tagsArg with
    | none => compileTagFilters rest acc
    | some g =>
      if g.negate && g.globs.length > 1 then
        .error ("cannot negate a tag in a OR group: " ++ tagsArg)
      else compileTagFilters rest (acc ++ [g])

/-- The id select of one tag group: `SELECT note_id FROM notes_collections
WHERE collection_id IN (SELECT id FROM collections t WHERE kind = 'tag'
AND (t.name GLOB ? OR …))`.  GLOB matching is SQLite's; the model takes it
as the abstract `globMatch pattern name`. -/
def tagGroupSelect (globMatch : String → String → Bool) (s : Store)
    (g : TagGroup) : List Nat :=
  s.notesCollections.filterMap fun nc =>
    if s.collections.any fun c =>
        c.id == nc.2 && c.kind == "tag" && g.globs.any fun p => globMatch p c.name
    then some nc.1 else none

/-- Whether note `n` passes one compiled tag group (`n.id IN (…)`, or
`n.id NOT IN (…)` for a negated group). -/
def tagGroupPasses (globMatch : String → String → Bool) (s : Store)
    (g : TagGroup) (n : Nat) : Bool :=
  let inSet := (tagGroupSelect globMatch s g).contains n
  if g.negate then !inSet else inSet

/-! ## ORDER BY construction -/

/-- `orderTerm`: the SQL order term of one sorter. -/
def orderTerm (sorter : Sorter) : String :=
  let order := if sorter.ascending then " ASC" else " DESC"
  match sorter.field with
  | .created => "n.created" ++ order
  | .modified => "n.modified" ++ order
  | .path => "n.path" ++ order
  | .random => "RANDOM()"
  | .title => "n.title" ++ order
  | .wordCount => "n.word_count" ++ order

/-- The relevance order term added when a match expression is present. -/
def bm25OrderTerm : String := "bm25(notes_fts, 1000.0, 500.0, 1.0)"

/-- The ORDER BY terms of `findRows`, in priority order: the user
sorters, then the additional terms (the bm25 relevance score when a match
expression is present), then the final `n.title ASC` tie-break; when the
query uses the transitive closure, `l.distance` is prepended in front of
everything. -/
def buildOrderTerms (sorters : List Sorter) (hasMatch : Bool)
    (usesClosure : Bool) : List String :=
  let additionalOrderTerms := if hasMatch then [bm25OrderTerm] else []
  let terms := sorters.map orderTerm ++ additionalOrderTerms ++ ["n.title ASC"]
  if usesClosure then "l.distance" :: terms else terms

/-- Whether the compiled query declares the `transitive_closure` CTE: some
link filter is recursive (Related always is) and its paths resolved to a
non-empty seed set (`setupLinkFilter` returns before setting the flag
otherwise). -/
def usesTransitiveClosure (s : Store) (opts : FinderOpts) : Bool :=
  (match opts.linkedBy with
   | some f => f.recursive && !(Store.findIdsByPathPrefixes s f.paths).isEmpty
   | none => false) ||
  (match opts.linkTo with
   | some f => f.recursive && !(Store.findIdsByPathPrefixes s f.paths).isEmpty
   | none => false) ||
  (match opts.related with
   | some ps => !(Store.findIdsByPathPrefixes s ps).isEmpty
   | none => false)

/-- The ORDER BY terms `findRows` emits for the given store and options. -/
def findRowsOrderTerms (s : Store) (opts : FinderOpts) : List String :=
  buildOrderTerms opts.sorters opts.matchExpr.isSome (usesTransitiveClosure s opts)

/-! ## The row model of `findRows` / `Find`

The SQL query is modelled at the level of row membership: which notes the
WHERE/GROUP BY/HAVING clauses keep.  The FTS5 `MATCH` join and the actual
ORDER BY evaluation are external capabilities (they affect ranking and
snippets, not which of the modelled filters a row passes), so the model
returns the surviving note ids in table order, then applies LIMIT. -/

/-- `pathRegex`: the ICU regex `p[^/]*|p/.+` — the file itself or anything
beneath it as a directory (pattern escaping is external; the regex is
taken as a full match of the path). -/
def pathRegexMatches (p : String) (path : String) : Bool :=
  (likePrefix p path && !(strContains (strDrop path p.data.length) '/')) ||
  (likePrefix (p ++ "/") path && !((strDrop path (p.data.length + 1)).data.isEmpty))

/-- The shared `maxDistance` variable of `findRows` after all link filters
assigned it, in program order: linkedBy, then linkTo, then Related (which
hard-codes 2). -/
def effectiveMaxDistance (opts : FinderOpts) : Nat :=
  match opts.related, opts.linkTo, opts.linkedBy with
  | some _, _, _ => 2
  | none, some f, _ => f.maxDistance
  | none, none, some f => f.maxDistance
  | none, none, none => 0

/-- Whether one note row passes every WHERE/HAVING filter of the compiled
query (tag groups are compiled beforehand; a Related filter whose seeds
resolved empty contributes nothing here — that case is handled by
`findRows`). -/
def notePasses (globMatch : String → String → Bool) (s : Store)
    (opts : FinderOpts) (tagGroups : List TagGroup) (n : StoredNote) : Bool :=
  (match opts.includePaths with
   | none => true
   | some ps => ps.any fun p => pathRegexMatches p n.path) &&
  (match opts.excludePaths with
   | none => true
   | some ps => ps.all fun p => !pathRegexMatches p n.path) &&
  (match opts.excludeIds with
   | none => true
   | some ids => !ids.contains n.id) &&
  tagGroups.all (fun g => tagGroupPasses globMatch s g n.id) &&
  (match opts.linkedBy with
   | none => true
   | some f =>
     linkFilterPasses s f.paths (-1) f.negate f.recursive
       (effectiveMaxDistance opts) n.id) &&
  (match opts.linkTo with
   | none => true
   | some f =>
     linkFilterPasses s f.paths 1 f.negate f.recursive
       (effectiveMaxDistance opts) n.id) &&
  (match opts.related with
   | none => true
   | some ps =>
     let ids := Store.findIdsByPathPrefixes s ps
     ids.isEmpty || relatedPasses s ids n.id) &&
  (!opts.orphan || !(s.links.any fun l => l.targetId == some n.id)) &&
  (match opts.createdStart with | none => true | some t => decide (t ≤ n.created)) &&
  (match opts.createdEnd with | none => true | some t => decide (n.created < t)) &&
  (match opts.modifiedStart with | none => true | some t => decide (t ≤ n.modified)) &&
  (match opts.modifiedEnd with | none => true | some t => decide (n.modified < t))

/-- The tag groups of the query: nothing when `opts.Tags` is nil,
otherwise the compiled groups (or the invalid-query error). -/
def compiledTagGroups (opts : FinderOpts) : Except String (List TagGroup) :=
  match opts.tags with
  | none => Except.ok []
  | some tagsArgs => compileTagFilters tagsArgs []

/-- Whether a Related filter is present whose target paths resolved to no
seed at all (`setupLinkFilter` then adds nothing for it). -/
def relatedSeedsEmpty (s : Store) (opts : FinderOpts) : Bool :=
  match opts.related with
  | some ps => (Store.findIdsByPathPrefixes s ps).isEmpty
  | none => false

/-- Whether some link filter declares the join alias `l` (a non-negated
linkedBy/linkTo filter with a non-empty seed set adds the LEFT JOIN). -/
def declaresJoinAlias (s : Store) (opts : FinderOpts) : Bool :=
  (match opts.linkedBy with
   | some f => !f.negate && !(Store.findIdsByPathPrefixes s f.paths).isEmpty
   | none => false) ||
  (match opts.linkTo with
   | some f => !f.negate && !(Store.findIdsByPathPrefixes s f.paths).isEmpty
   | none => false)

/-- The row set of the query: the ids of the notes passing every filter,
capped at the limit. -/
def passingRows (globMatch : String → String → Bool) (s : Store)
    (opts : FinderOpts) (tagGroups : List TagGroup) : List Nat :=
  let rows := (s.notes.filter (notePasses globMatch s opts tagGroups)).map
    fun n => n.id
  if opts.limit > 0 then rows.take opts.limit else rows

/-- `findRows`: compile the tag groups (which may fail with an invalid
query), fail when the Related filter's seeds resolved empty while nothing
declared the join alias `l` (`setupLinkFilter` adds neither the join nor
the GROUP BY then, but `findRows` appends `HAVING MIN(l.distance) = 2`
regardless, so preparing the SQL fails on the unknown column), and
otherwise return the ids of the rows passing every filter, capped at the
limit.  Several link filters at once fall outside the modelled fragment
(their joins would share the alias `l`). -/
def findRows (globMatch : String → String → Bool) (s : Store)
    (opts : FinderOpts) : Except String (List Nat) :=
  match compiledTagGroups opts with
  | .error e => .error e
  | .ok tagGroups =>
    if relatedSeedsEmpty s opts && !declaresJoinAlias s opts then
      .error "no such column: l.distance"
    else
      .ok (passingRows globMatch s opts tagGroups)

/-- `Find`: mention expansion, then the row query. -/
def find (globMatch : String → String → Bool) (s : Store)
    (opts : FinderOpts) : Except String (List Nat) :=
  match expandMentionsIntoMatch s opts with
  | .error e => .error e
  | .ok opts => findRows globMatch s opts

/-! ## Concrete fixtures

Small stores and notes used to evaluate the claims on the spec's own
examples.  Stores are either built through `Store.add` (exercising the
write path) or written literally as table contents. -/

/-- GLOB matching instantiated as literal equality: a pattern without
wildcard characters matches exactly its own text under SQLite GLOB. -/
def eqGlob : String → String → Bool := fun p t => p == t

/-- A note at path `a` holding one link to the not-yet-existing path
`b/note`. -/
def noteA : NoteMeta :=
  { path := "a", title := "A", lead := "", body := "", rawContent := ""
    wordCount := 0
    links := [{ title := "to b", href := "b/note", external := false,
                rels := [], snippet := "", snippetStart := 0, snippetEnd := 0 }]
    tags := [], metadata := [], created := 0, modified := 0, checksum := "" }

/-- A note at path `b/note` with no links. -/
def noteB : NoteMeta :=
  { path := "b/note", title := "B", lead := "", body := "", rawContent := ""
    wordCount := 0, links := [], tags := [], metadata := []
    created := 0, modified := 0, checksum := "" }

/-- The store after adding `noteA` alone: its link is unresolved. -/
def storeA : Store := (Store.empty.add noteA).1

/-- The store after adding `noteA` then `noteB` (id 2): the backfill pass
healed A's link. -/
def storeAB : Store := (storeA.add noteB).1

/-- The link row inserted for `noteA`'s authored link, before healing. -/
def linkA1 : StoredLink :=
  { sourceId := 1, targetId := none, title := "to b", href := "b/note"
    external := false, rels := "", snippet := "", snippetStart := 0, snippetEnd := 0 }

/-- A note at path `note-x` titled `note-x` with the alias `nx`. -/
def noteX : NoteMeta :=
  { path := "note-x", title := "note-x", lead := "", body := "", rawContent := ""
    wordCount := 0, links := [], tags := []
    metadata := [("aliases", MetaValue.str "nx")]
    created := 0, modified := 0, checksum := "" }

/-- The store holding only `noteX` (id 1). -/
def storeX : Store := (Store.empty.add noteX).1

/-- The `notes` row of `noteX` inside `storeX`. -/
def oldRowX : StoredNote :=
  { id := 1, path := "note-x", sortablePath := "note-x", title := "note-x"
    lead := "", body := "", rawContent := "", wordCount := 0
    metadata := [("aliases", MetaValue.str "nx")], checksum := ""
    created := 0, modified := 0 }

/-- An updated version of `noteX`: new title, checksum, modified time, and
a different creation timestamp. -/
def noteX2 : NoteMeta :=
  { noteX with title := "X2", created := 99, modified := 5, checksum := "c2" }

/-- A helper note row for literal stores. -/
def plainNote (id : Nat) (path title : String) : StoredNote :=
  { id := id, path := path, sortablePath := path, title := title
    lead := "", body := "", rawContent := "", wordCount := 0
    metadata := [], checksum := "", created := 0, modified := 0 }

/-- A resolved link row for literal stores. -/
def plainLink (src tgt : Nat) (href : String) : StoredLink :=
  { sourceId := src, targetId := some tgt, title := "", href := href
    external := false, rels := "", snippet := "", snippetStart := 0, snippetEnd := 0 }

/-- The spec's Related example: links A→B and C→B (ids 1→2 and 3→2). -/
def stShared : Store :=
  { notes := [plainNote 1 "a" "A", plainNote 2 "b" "B", plainNote 3 "c" "C"]
    links := [plainLink 1 2 "b", plainLink 3 2 "b"]
    collections := [], notesCollections := [], nextId := 4 }

/-- The spec's closure-bound example: the chain A→B→C→D (ids 1→2→3→4). -/
def stChain : Store :=
  { notes := [plainNote 1 "a" "A", plainNote 2 "b" "B", plainNote 3 "c" "C",
              plainNote 4 "d" "D"]
    links := [plainLink 1 2 "b", plainLink 2 3 "c", plainLink 3 4 "d"]
    collections := [], notesCollections := [], nextId := 5 }

/-- A directed chain A→B→C (ids 1→2→3). -/
def stChain3 : Store :=
  { notes := [plainNote 1 "a" "A", plainNote 2 "b" "B", plainNote 3 "c" "C"]
    links := [plainLink 1 2 "b", plainLink 2 3 "c"]
    collections := [], notesCollections := [], nextId := 4 }

/-- Two notes, the first carrying the tag `foo`. -/
def stTag : Store :=
  { notes := [plainNote 1 "a" "A", plainNote 2 "b" "B"]
    links := [], collections := [{ id := 1, kind := "tag", name := "foo" }]
    notesCollections := [(1, 1)], nextId := 3 }

/-! ## Helper lemmas -/

/-- No sorter's order term is the relevance (bm25) term. -/
theorem orderTerm_ne_bm25 (sorter : Sorter) : orderTerm sorter ≠ bm25OrderTerm := by
  obtain ⟨f, a⟩ := sorter
  cases f <;> cases a <;> decide

/-! ## C10 -/

/-- C10: `idForRow` absorbs the no-rows case into the invalid id (and only
propagates an underlying database failure), so `findIdByPath` and
`findIdByPathPrefix` return the invalid id 0, not an error, when no note
matches the path or path prefix. -/
theorem C10_no_rows_absorbed :
    (idForRow ScanResult.noRows = .ok 0 ∧ (0 : NoteId).isValid = false) ∧
    (∀ msg, idForRow (ScanResult.dbError msg) = .error msg) ∧
    (∀ (s : Store) (p : String), (∀ n ∈ s.notes, (n.path == p) = false) →
      Store.findIdByPath s p = 0) ∧
    (∀ (s : Store) (p : String), (∀ n ∈ s.notes, likePrefix p n.path = false) →
      Store.findIdByPathPrefix s p = 0) := by
  refine ⟨⟨rfl, rfl⟩, fun msg => rfl, ?_, ?_⟩
  · intro s p h
    have hf : s.notes.find? (fun n => n.path == p) = none := by
      rw [List.find?_eq_none]
      intro n hn
      simp [h n hn]
    simp [Store.findIdByPath, hf]
  · intro s p h
    have hf : s.notes.find? (fun n => likePrefix p n.path) = none := by
      rw [List.find?_eq_none]
      intro n hn
      simp [h n hn]
    simp [Store.findIdByPathPrefix, hf]

/-- C10 witness: a concrete store has no note at path `zzz` and no note
with path prefix `zzz`, and both lookups return the invalid id. -/
theorem C10_no_rows_absorbed_witness :
    Store.findIdByPath stTag "zzz" = 0 ∧ Store.findIdByPathPrefix stTag "zzz" = 0 := by
  constructor
  · refine C10_no_rows_absorbed.2.2.1 stTag "zzz" ?_
    intro n hn
    simp only [stTag, plainNote, List.mem_cons, List.not_mem_nil, or_false] at hn
    rcases hn with rfl | rfl <;> rfl
  · refine C10_no_rows_absorbed.2.2.2 stTag "zzz" ?_
    intro n hn
    simp only [stTag, plainNote, List.mem_cons, List.not_mem_nil, or_false] at hn
    rcases hn with rfl | rfl <;> rfl

/-! ## C9 -/

/-- C9: mention expansion quotes a resolved note's title as the title with
every double quote stripped, wrapped in double quotes; a title holding a
double quote therefore yields a phrase different from the literal title. -/
theorem C9_mention_quote_stripping :
    (∀ n : StoredNote,
      (rowTitles n).head? = some ("\"" ++ removeQuotes n.title ++ "\"")) ∧
    (∀ t : String, '"' ∈ t.data → removeQuotes t ≠ t) := by
  constructor
  · intro n
    rfl
  · intro t hq heq
    have hdata : (t.data.filter fun c => !(c == '"')).length < t.data.length := by
      refine List.length_filter_lt_length_iff_exists.2 ⟨'"', hq, ?_⟩
      simp
    have hfl : (t.data.filter fun c => !(c == '"')) = t.data :=
      congrArg String.data heq
    rw [hfl] at hdata
    omega

/-- C9 witness: the title `a"b` contains a double quote and is changed by
the stripping. -/
theorem C9_mention_quote_stripping_witness :
    '"' ∈ "a\"b".data ∧ removeQuotes "a\"b" ≠ "a\"b" :=
  ⟨by decide, C9_mention_quote_stripping.2 "a\"b" (by decide)⟩

/-! ## C1 -/

/-- C1 counterexample: with one user sort key (created ascending) and a
match expression, the relevance term is NOT the highest-priority sort key
— it sits after the user key (and before the title tie-break), refuting
the claimed top-priority injection. -/
theorem C1_counterexample :
    buildOrderTerms [⟨SortField.created, true⟩] true false =
      ["n.created ASC", bm25OrderTerm, "n.title ASC"] ∧
    (["n.created ASC", bm25OrderTerm, "n.title ASC"].head? ≠ some bm25OrderTerm) := by
  exact ⟨rfl, by decide⟩

/-- C1 (amended): with a match expression present, the relevance score is
appended AFTER every user-specified sort key, immediately before the final
`n.title ASC` tie-break that is always appended (a recursive link filter's
distance term, when present, precedes everything); without a match
expression, no relevance term appears in the ordering. -/
theorem C1_relevance_appended_after_user_keys (s : Store) (opts : FinderOpts) :
    (opts.matchExpr.isSome = true →
      findRowsOrderTerms s opts =
        (if usesTransitiveClosure s opts then ["l.distance"] else []) ++
          (opts.sorters.map orderTerm ++ [bm25OrderTerm, "n.title ASC"])) ∧
    (opts.matchExpr = none →
      bm25OrderTerm ∉ findRowsOrderTerms s opts) := by
  constructor
  · intro h
    rw [findRowsOrderTerms, buildOrderTerms, h]
    cases usesTransitiveClosure s opts <;> simp
  · intro h
    rw [findRowsOrderTerms, buildOrderTerms, h]
    have hne : bm25OrderTerm ∉
        List.map orderTerm opts.sorters ++ ([] ++ ["n.title ASC"]) := by
      intro hmem
      rcases List.mem_append.1 hmem with hmap | hrest
      · rcases List.mem_map.1 hmap with ⟨sorter, _, heq⟩
        exact orderTerm_ne_bm25 sorter heq
      · rw [List.nil_append, List.mem_singleton] at hrest
        exact absurd hrest (by decide)
    cases htc : usesTransitiveClosure s opts
    · simpa using hne
    · simp only [Option.isSome_none, Bool.false_eq_true, if_false, if_true]
      intro hmem
      rcases List.mem_cons.1 hmem with hd | htl
      · exact absurd hd (by decide)
      · exact hne (by simpa using htl)

/-- C1 witness: the amended ordering at a concrete query with one user
sort key and a match expression, and at a query without a match
expression. -/
theorem C1_relevance_appended_after_user_keys_witness :
    findRowsOrderTerms Store.empty
        { matchExpr := some "x", sorters := [⟨SortField.created, true⟩] } =
      ["n.created ASC", bm25OrderTerm, "n.title ASC"] ∧
    bm25OrderTerm ∉ findRowsOrderTerms Store.empty { matchExpr := none } := by
  constructor
  · have h := (C1_relevance_appended_after_user_keys Store.empty
      { matchExpr := some "x", sorters := [⟨SortField.created, true⟩] }).1 rfl
    rw [h]
    rfl
  · exact (C1_relevance_appended_after_user_keys Store.empty
      { matchExpr := none }).2 rfl

/-! ## C3 -/

/-- The links inserted by the `addLinks` loop: the previous rows stay a
prefix, and every appended row carries the note's id and the authored
link's title/href/external flag (its target depends on the store state at
insertion time); conversely every authored link contributes a row. -/
theorem foldl_insertLink_links (links : List AuthoredLink) :
    ∀ (s : Store) (id : NoteId),
      ∃ rest,
        (links.foldl (fun acc l => acc.insertLink id l) s).links = s.links ++ rest ∧
        (∀ r ∈ rest, r.sourceId = id ∧ ∃ al ∈ links,
          r.title = al.title ∧ r.href = al.href ∧ r.external = al.external) ∧
        (∀ al ∈ links, ∃ r ∈ rest, r.sourceId = id ∧
          r.title = al.title ∧ r.href = al.href ∧ r.external = al.external) := by
  induction links with
  | nil =>
    intro s id
    exact ⟨[], by simp, by simp, by simp⟩
  | cons l ls ih =>
    intro s id
    obtain ⟨rest, heq, hall, hexist⟩ := ih (s.insertLink id l) id
    refine ⟨addLinkRow s id l :: rest, ?_, ?_, ?_⟩
    · rw [List.foldl_cons, heq]
      show (s.links ++ [addLinkRow s id l]) ++ rest = _
      simp
    · intro r hr
      rcases List.mem_cons.1 hr with rfl | hr
      · exact ⟨rfl, l, List.mem_cons_self _ _, rfl, rfl, rfl⟩
      · obtain ⟨hid, al, hal, h1, h2, h3⟩ := hall r hr
        exact ⟨hid, al, List.mem_cons_of_mem _ hal, h1, h2, h3⟩
    · intro al hal
      rcases List.mem_cons.1 hal with rfl | hal
      · exact ⟨addLinkRow s id al, List.mem_cons_self _ _, rfl, rfl, rfl, rfl⟩
      · obtain ⟨r, hr, h⟩ := hexist al hal
        exact ⟨r, List.mem_cons_of_mem _ hr, h⟩

/-- The `addLinks` loop never touches the `notes` table. -/
theorem foldl_insertLink_notes (links : List AuthoredLink) :
    ∀ (s : Store) (id : NoteId),
      (links.foldl (fun acc l => acc.insertLink id l) s).notes = s.notes := by
  induction links with
  | nil => intro s id; rfl
  | cons l ls ih => intro s id; rw [List.foldl_cons]; exact ih _ id

/-- `addLinks` (insert the note's own links, then the backfill pass) heals
every already-stored unresolved non-external link whose href is a prefix
of the note's path. -/
theorem addLinks_heals (s : Store) (id : NoteId) (note : NoteMeta)
    (l : StoredLink) (hmem : l ∈ s.links) (hnull : l.targetId = none)
    (hext : l.external = false) (hpre : likePrefix l.href note.path = true) :
    { l with targetId := some id } ∈ (s.addLinks id note).links := by
  obtain ⟨rest, heq, -, -⟩ := foldl_insertLink_links note.links s id
  have hrw : (s.addLinks id note).links =
      ((note.links.foldl (fun acc l => acc.insertLink id l) s).links).map (fun r =>
        if r.targetId == none && !r.external && likePrefix r.href note.path
        then { r with targetId := some id } else r) := rfl
  rw [hrw, heq]
  have hl : l ∈ s.links ++ rest := List.mem_append_left _ hmem
  have hm := List.mem_map_of_mem
    (f := fun r : StoredLink =>
      if r.targetId == none && !r.external && likePrefix r.href note.path
      then { r with targetId := some id } else r) hl
  simpa [hnull, hext, hpre] using hm

/-- C3 (amended): after `Add` of a note N, every previously stored
non-external link with an unresolved (NULL) target whose href is a prefix
of N's path gets its target set to N's fresh id; consequently, after
adding A (linking to the not-yet-existing `b/note`) and then adding a note
at `b/note`, a LinkedBy(A) query — the notes linked by A — includes the
new note (a LinkTo(A) query, which selects the notes linking to A, does
not; see the counterexample). -/
theorem C3_backfill_heals_unresolved_links (s : Store) (note : NoteMeta)
    (l : StoredLink) (hmem : l ∈ s.links) (hnull : l.targetId = none)
    (hext : l.external = false) (hpre : likePrefix l.href note.path = true) :
    { l with targetId := some (s.add note).2 } ∈ (s.add note).1.links ∧
    find eqGlob storeAB
      { linkedBy := some ⟨["a"], false, false, 0⟩ } = .ok [2] := by
  refine ⟨?_, rfl⟩
  exact addLinks_heals _ s.nextId note l hmem hnull hext hpre

/-- C3 witness: the healing at the spec's own scenario — note A at `a`
links to `b/note` before it exists; adding `b/note` (id 2) heals A's link,
and LinkedBy(A) then includes the new note. -/
theorem C3_backfill_heals_unresolved_links_witness :
    { linkA1 with targetId := some 2 } ∈ storeAB.links ∧
    find eqGlob storeAB
      { linkedBy := some ⟨["a"], false, false, 0⟩ } = .ok [2] :=
  C3_backfill_heals_unresolved_links storeA noteB linkA1
    (List.mem_singleton.mpr rfl) rfl rfl rfl

/-- C3 counterexample: in the same healed store, the claim's stated
LinkTo(A) query does NOT include the new note — it returns no rows, since
nothing links to A. -/
theorem C3_counterexample :
    find eqGlob storeAB { linkTo := some ⟨["a"], false, false, 0⟩ } = .ok [] := rfl

/-! ## C4 -/

/-- Inversion of the CTE's recursive case: an extension row has distance
one more than its parent, and the parent satisfied the distance guard. -/
theorem mem_tcExtend_distance (links : List (Nat × Nat)) (maxDistance : Nat)
    (r r' : TCRow) (h : r' ∈ tcExtend links maxDistance r) :
    r'.distance = r.distance + 1 ∧
      ((maxDistance == 0) = true ∨ r.distance < maxDistance) := by
  rw [tcExtend] at h
  rcases List.mem_filterMap.1 h with ⟨l, -, hsome⟩
  split at hsome
  · next hcond =>
    cases hsome
    simp only [Bool.and_eq_true, Bool.or_eq_true, decide_eq_true_eq] at hcond
    exact ⟨rfl, hcond.2⟩
  · cases hsome

/-- Every row the fuelled rounds produce from a distance-bounded frontier
stays within the bound (when the bound is positive). -/
theorem tcRounds_distance_le (links : List (Nat × Nat)) (maxDistance : Nat)
    (hmd : maxDistance ≠ 0) :
    ∀ (fuel : Nat) (frontier : List TCRow),
      (∀ r ∈ frontier, r.distance ≤ maxDistance) →
      ∀ r ∈ tcRounds links maxDistance fuel frontier, r.distance ≤ maxDistance := by
  intro fuel
  induction fuel with
  | zero => intro frontier h r hr; exact h r hr
  | succ n ih =>
    intro frontier h r hr
    rw [tcRounds] at hr
    rcases List.mem_append.1 hr with h1 | h2
    · exact h r h1
    · split at h2
      · cases h2
      · refine ih _ ?_ r h2
        intro r' hr'
        rcases List.mem_flatMap.1 hr' with ⟨r0, hr0, hext⟩
        obtain ⟨hd, hguard⟩ := mem_tcExtend_distance links maxDistance r0 r' hext
        rcases hguard with hz | hlt
        · exact absurd (by simpa using hz) hmd
        · omega

/-- C4 (amended): when `maxDistance` is positive every transitive-closure
row stays within distance `maxDistance` (distance 0 is unbounded up to the
cycle guard); on the chain A→B→C→D, the recursive LinkedBy(A) filter —
the notes linked by A — returns {B, C} with maxDistance 2 (excluding D)
and {B, C, D} with maxDistance 0.  The claim's LinkTo(A) query, which
selects the notes linking to A, instead returns the empty set on this
chain (see the counterexample). -/
theorem C4_closure_bound (links : List (Nat × Nat)) (maxDistance : Nat)
    (r : TCRow) (hmd : maxDistance ≠ 0)
    (hr : r ∈ transitiveClosureRows links maxDistance) :
    r.distance ≤ maxDistance ∧
    find eqGlob stChain { linkedBy := some ⟨["a"], false, true, 2⟩ } = .ok [2, 3] ∧
    find eqGlob stChain { linkedBy := some ⟨["a"], false, true, 0⟩ } = .ok [2, 3, 4] := by
  refine ⟨?_, rfl, rfl⟩
  refine tcRounds_distance_le links maxDistance hmd _ _ ?_ r hr
  intro r0 hr0
  rcases List.mem_map.1 hr0 with ⟨l, -, rfl⟩
  show 1 ≤ maxDistance
  omega

/-- C4 witness: the closure bound at a concrete row of the one-link graph,
together with the chain examples. -/
theorem C4_closure_bound_witness :
    (⟨1, 2, 1, [1, 2]⟩ : TCRow).distance ≤ 2 ∧
    find eqGlob stChain { linkedBy := some ⟨["a"], false, true, 2⟩ } = .ok [2, 3] ∧
    find eqGlob stChain { linkedBy := some ⟨["a"], false, true, 0⟩ } = .ok [2, 3, 4] :=
  C4_closure_bound [(1, 2)] 2 ⟨1, 2, 1, [1, 2]⟩ (by decide)
    (List.mem_singleton.mpr rfl)

/-- C4 counterexample: on the chain A→B→C→D the claim's stated query —
LinkTo(A, recursive, maxDistance 2) — returns no rows at all, not {B, C}:
LinkTo selects the notes linking to A, and nothing links to A. -/
theorem C4_counterexample :
    find eqGlob stChain { linkTo := some ⟨["a"], false, true, 2⟩ } = .ok [] := rfl

/-! ## C2 -/

/-- SQL `MIN` is bounded by every group member. -/
theorem sqlMin_le_of_mem (ds : List Nat) (d : Nat) (h : d ∈ ds) :
    ∃ m, sqlMin ds = some m ∧ m ≤ d := by
  induction ds with
  | nil => cases h
  | cons a as ih =>
    rcases List.mem_cons.1 h with rfl | h
    · rw [sqlMin]
      cases hm : sqlMin as
      · exact ⟨d, rfl, Nat.le_refl d⟩
      · exact ⟨Nat.min d _, rfl, Nat.min_le_left _ _⟩
    · obtain ⟨m, hm, hle⟩ := ih h
      rw [sqlMin, hm]
      exact ⟨Nat.min a m, rfl, Nat.le_trans (Nat.min_le_right _ _) hle⟩

/-- The frontier rows are among the rounds' output. -/
theorem mem_tcRounds_of_mem_frontier (links : List (Nat × Nat))
    (maxDistance fuel : Nat) (frontier : List TCRow) (r : TCRow)
    (h : r ∈ frontier) : r ∈ tcRounds links maxDistance fuel frontier := by
  cases fuel with
  | zero => exact h
  | succ n => rw [tcRounds]; exact List.mem_append_left _ h

/-- Every link contributes its base (distance 1) row to the closure. -/
theorem base_row_mem_transitiveClosureRows (links : List (Nat × Nat))
    (maxDistance : Nat) (l : Nat × Nat) (h : l ∈ links) :
    (⟨l.1, l.2, 1, [l.1, l.2]⟩ : TCRow) ∈ transitiveClosureRows links maxDistance := by
  rw [transitiveClosureRows]
  exact mem_tcRounds_of_mem_frontier _ _ _ _ _
    (List.mem_map_of_mem (fun l : Nat × Nat => TCRow.mk l.1 l.2 1 [l.1, l.2]) h)

/-- A resolved stored link yields its pair in `resolvedLinks`. -/
theorem mem_resolvedLinks (links : List StoredLink) (l : StoredLink) (t : Nat)
    (hmem : l ∈ links) (ht : l.targetId = some t) :
    (l.sourceId, t) ∈ resolvedLinks links := by
  rw [resolvedLinks]
  exact List.mem_filterMap.2 ⟨l, hmem, by rw [ht]; rfl⟩

/-- Boolean conjunction as a biconditional. -/
theorem andb_eq_true_iff (a b : Bool) : (a && b) = true ↔ a = true ∧ b = true := by
  cases a <;> cases b <;> simp

/-- Boolean disjunction as a biconditional. -/
theorem orb_eq_true_iff (a b : Bool) : (a || b) = true ↔ a = true ∨ b = true := by
  cases a <;> cases b <;> simp

/-- SQL `MIN` of a group is one of its members. -/
theorem sqlMin_mem (ds : List Nat) (m : Nat) (h : sqlMin ds = some m) :
    m ∈ ds := by
  induction ds generalizing m with
  | nil => cases h
  | cons a as ih =>
    rw [sqlMin] at h
    cases hm : sqlMin as with
    | none =>
      rw [hm] at h
      have h' : some a = some m := h
      cases h'
      exact List.mem_cons_self _ _
    | some m' =>
      rw [hm] at h
      have h' : some (a.min m') = some m := h
      cases h'
      rcases Nat.le_total a m' with hle | hle
      · have heq : a.min m' = a := Nat.min_eq_left hle
        rw [heq]
        exact List.mem_cons_self _ _
      · have heq : a.min m' = m' := Nat.min_eq_right hle
        rw [heq]
        exact List.mem_cons_of_mem _ (ih m' hm)

/-- SQL `MIN` equals any member bounding the whole group from below. -/
theorem sqlMin_eq_of_min_mem (ds : List Nat) (d0 : Nat) (hmem : d0 ∈ ds)
    (hall : ∀ d ∈ ds, d0 ≤ d) : sqlMin ds = some d0 := by
  induction ds with
  | nil => cases hmem
  | cons a as ih =>
    rw [sqlMin]
    rcases List.mem_cons.1 hmem with heq | hmem'
    · cases hm : sqlMin as with
      | none =>
        show some a = some d0
        rw [heq]
      | some m' =>
        show some (a.min m') = some d0
        have hm'mem : m' ∈ as := sqlMin_mem as m' hm
        have hle : d0 ≤ m' := hall m' (List.mem_cons_of_mem _ hm'mem)
        have heq2 : a.min m' = d0 := (Nat.min_eq_left (heq ▸ hle)).trans heq.symm
        rw [heq2]
    · have hrec : sqlMin as = some d0 :=
        ih hmem' (fun d hd => hall d (List.mem_cons_of_mem _ hd))
      rw [hrec]
      show some (a.min d0) = some d0
      have hle : d0 ≤ a := hall a (List.mem_cons_self _ _)
      have heq2 : a.min d0 = d0 := Nat.min_eq_right hle
      rw [heq2]

/-- Full inversion of the CTE's recursive case: an extension row is built
from one link leaving the parent's target, whose target is new on the
path, under the distance guard. -/
theorem mem_tcExtend_iff (links : List (Nat × Nat)) (maxDistance : Nat)
    (r r' : TCRow) :
    r' ∈ tcExtend links maxDistance r ↔
      ∃ l ∈ links, l.1 = r.target ∧ r.path.contains l.2 = false ∧
        (maxDistance = 0 ∨ r.distance < maxDistance) ∧
        r' = ⟨r.source, l.2, r.distance + 1, r.path ++ [l.2]⟩ := by
  rw [tcExtend, List.mem_filterMap]
  constructor
  · rintro ⟨l, hl, hsome⟩
    split at hsome
    · next hcond =>
      simp only [Bool.and_eq_true, Bool.or_eq_true, beq_iff_eq,
        Bool.not_eq_true', decide_eq_true_eq] at hcond
      cases hsome
      exact ⟨l, hl, hcond.1.1, hcond.1.2, hcond.2, rfl⟩
    · cases hsome
  · rintro ⟨l, hl, h1, h2, h3, rfl⟩
    refine ⟨l, hl, ?_⟩
    have hcond : (l.1 == r.target && !(r.path.contains l.2) &&
        (maxDistance == 0 || decide (r.distance < maxDistance))) = true := by
      simp only [Bool.and_eq_true, Bool.or_eq_true, beq_iff_eq,
        Bool.not_eq_true', decide_eq_true_eq]
      exact ⟨⟨h1, h2⟩, h3⟩
    rw [if_pos hcond]

/-- One unfolding of the fuelled rounds. -/
theorem tcRounds_succ (links : List (Nat × Nat)) (maxDistance fuel : Nat)
    (frontier : List TCRow) :
    tcRounds links maxDistance (fuel + 1) frontier =
      frontier ++
        (if (frontier.flatMap (tcExtend links maxDistance)).isEmpty then []
         else tcRounds links maxDistance fuel
           (frontier.flatMap (tcExtend links maxDistance))) := rfl

/-- Once every frontier row has exhausted a positive distance bound, the
rounds add nothing. -/
theorem tcRounds_saturated (links : List (Nat × Nat)) (maxDistance : Nat)
    (hmd : maxDistance ≠ 0) :
    ∀ (fuel : Nat) (frontier : List TCRow),
      (∀ r ∈ frontier, maxDistance ≤ r.distance) →
      tcRounds links maxDistance fuel frontier = frontier := by
  intro fuel
  cases fuel with
  | zero => intro frontier h; rfl
  | succ k =>
    intro frontier h
    rw [tcRounds_succ]
    have hnext : frontier.flatMap (tcExtend links maxDistance) = [] := by
      rw [List.eq_nil_iff_forall_not_mem]
      intro x hx
      rcases List.mem_flatMap.1 hx with ⟨r, hr, hext⟩
      rcases (mem_tcExtend_iff links maxDistance r x).1 hext with
        ⟨l, -, -, -, hor, -⟩
      rcases hor with hz | hlt
      · exact hmd hz
      · have := h r hr
        omega
    rw [hnext]
    simp

/-- At the Related filter's fixed bound 2, the closure rows are exactly
the links' base rows plus one guarded extension round: the two-link
directed paths whose final target revisits neither earlier node. -/
theorem mem_transitiveClosureRows_two (links : List (Nat × Nat)) (r : TCRow) :
    r ∈ transitiveClosureRows links 2 ↔
      (∃ l ∈ links, r = ⟨l.1, l.2, 1, [l.1, l.2]⟩) ∨
      (∃ a ∈ links, ∃ b ∈ links, b.1 = a.2 ∧ b.2 ≠ a.1 ∧ b.2 ≠ a.2 ∧
        r = ⟨a.1, b.2, 2, [a.1, a.2, b.2]⟩) := by
  have hnextd : ∀ x ∈ (links.map (fun l : Nat × Nat =>
      TCRow.mk l.1 l.2 1 [l.1, l.2])).flatMap (tcExtend links 2),
      (2 : Nat) ≤ x.distance := by
    intro x hx
    rcases List.mem_flatMap.1 hx with ⟨r0, hr0, hext⟩
    rcases List.mem_map.1 hr0 with ⟨l0, -, rfl⟩
    rcases (mem_tcExtend_iff links 2 _ x).1 hext with ⟨l, -, -, -, -, rfl⟩
    show (2 : Nat) ≤ 1 + 1
    omega
  constructor
  · intro hr
    simp only [transitiveClosureRows] at hr
    rw [show 2 * links.length + 2 = (2 * links.length + 1) + 1 from rfl,
      tcRounds_succ] at hr
    rcases List.mem_append.1 hr with hb | hrest
    · left
      rcases List.mem_map.1 hb with ⟨l, hl, rfl⟩
      exact ⟨l, hl, rfl⟩
    · right
      have hrest' : r ∈ (links.map (fun l : Nat × Nat =>
          TCRow.mk l.1 l.2 1 [l.1, l.2])).flatMap (tcExtend links 2) := by
        split at hrest
        · cases hrest
        · rwa [tcRounds_saturated links 2 (by decide) _ _ hnextd] at hrest
      rcases List.mem_flatMap.1 hrest' with ⟨r0, hr0, hext⟩
      rcases List.mem_map.1 hr0 with ⟨a, ha, rfl⟩
      rcases (mem_tcExtend_iff links 2 _ r).1 hext with ⟨b, hb, h1, h2, -, rfl⟩
      have h2' : (([a.1, a.2] : List Nat).contains b.2) = false := h2
      have hne1 : b.2 ≠ a.1 := by
        intro hc
        have hct : (([a.1, a.2] : List Nat).contains b.2) = true :=
          List.elem_iff.2 (by rw [hc]; exact List.mem_cons_self _ _)
        rw [hct] at h2'
        cases h2'
      have hne2 : b.2 ≠ a.2 := by
        intro hc
        have hct : (([a.1, a.2] : List Nat).contains b.2) = true :=
          List.elem_iff.2
            (by rw [hc]; exact List.mem_cons_of_mem _ (List.mem_cons_self _ _))
        rw [hct] at h2'
        cases h2'
      exact ⟨a, ha, b, hb, h1, hne1, hne2, rfl⟩
  · intro h
    rcases h with ⟨l, hl, rfl⟩ | ⟨a, ha, b, hb, h1, h2, h3, rfl⟩
    · exact base_row_mem_transitiveClosureRows links 2 l hl
    · have hcont : (([a.1, a.2] : List Nat).contains b.2) = false := by
        cases hc : (([a.1, a.2] : List Nat).contains b.2)
        · rfl
        · have hmem := List.elem_iff.1 hc
          rcases List.mem_cons.1 hmem with hh | hmem2
          · exact absurd hh h2
          · rw [List.mem_singleton] at hmem2
            exact absurd hmem2 h3
      have hextmem : (⟨a.1, b.2, 2, [a.1, a.2, b.2]⟩ : TCRow) ∈
          (links.map (fun l : Nat × Nat =>
            TCRow.mk l.1 l.2 1 [l.1, l.2])).flatMap (tcExtend links 2) := by
        refine List.mem_flatMap.2 ⟨⟨a.1, a.2, 1, [a.1, a.2]⟩,
          List.mem_map.2 ⟨a, ha, rfl⟩, ?_⟩
        refine (mem_tcExtend_iff links 2 _ _).2
          ⟨b, hb, h1, hcont, Or.inr (by show (1 : Nat) < 2; omega), rfl⟩
      have hnefalse : ((links.map (fun l : Nat × Nat =>
          TCRow.mk l.1 l.2 1 [l.1, l.2])).flatMap (tcExtend links 2)).isEmpty
            = false := by
        cases hie : ((links.map (fun l : Nat × Nat =>
            TCRow.mk l.1 l.2 1 [l.1, l.2])).flatMap (tcExtend links 2)).isEmpty
        · rfl
        · rw [List.isEmpty_iff.1 hie] at hextmem
          cases hextmem
      simp only [transitiveClosureRows]
      rw [show 2 * links.length + 2 = (2 * links.length + 1) + 1 from rfl,
        tcRounds_succ, hnefalse]
      simp only [Bool.false_eq_true, if_false]
      rw [tcRounds_saturated links 2 (by decide) _ _ hnextd]
      exact List.mem_append_right _ hextmem

/-- C2 (amended): the Related filter keeps EXACTLY the notes whose
minimal one-orientation link-graph distance to the seed set is 2: a note
n passes if and only if some two-link directed path — forward from a seed
to n, or backward from n into a seed, never mixing directions and never
revisiting its first or middle node — exists, while no single resolved
link directly connects a seed and n in either orientation.  Hence a
seed's direct link neighbors (distance 1) are excluded, a sole seed note
itself is never returned, and the distance bound is the fixed constant 2:
the Related options carry no maxDistance, and whenever Related is present
the shared closure bound is overridden to 2.  On the chain A→B→C,
Related(A) returns {C}; on A→B with C→B, Related(A) returns nothing — C
is only reachable by mixing directions, which the closure never does. -/
theorem C2_related_exact_directed_distance_two :
    (∀ (s : Store) (ids : List NoteId) (n : Nat),
      relatedPasses s ids n = true ↔
        ((∃ a ∈ resolvedLinks s.links, ∃ b ∈ resolvedLinks s.links,
            b.1 = a.2 ∧ b.2 ≠ a.1 ∧ b.2 ≠ a.2 ∧
            ((a.1 ∈ ids ∧ b.2 = n) ∨ (a.1 = n ∧ b.2 ∈ ids))) ∧
          ¬∃ l ∈ resolvedLinks s.links,
            ((l.1 ∈ ids ∧ l.2 = n) ∨ (l.1 = n ∧ l.2 ∈ ids)))) ∧
    (∀ (s : Store) (ids : List NoteId) (n : Nat) (l : StoredLink),
      l ∈ s.links →
      ((ids.contains l.sourceId = true ∧ l.targetId = some n) ∨
        (l.sourceId = n ∧ ∃ t, l.targetId = some t ∧ ids.contains t = true)) →
      relatedPasses s ids n = false) ∧
    (∀ (s : Store) (s0 : Nat), relatedPasses s [s0] s0 = false) ∧
    (∀ opts : FinderOpts, opts.related.isSome = true →
      effectiveMaxDistance opts = 2) ∧
    find eqGlob stChain3 { related := some ["a"] } = .ok [3] ∧
    find eqGlob stShared { related := some ["a"] } = .ok [] := by
  have hiff : ∀ (s : Store) (ids : List NoteId) (n : Nat),
      relatedPasses s ids n = true ↔
        ((∃ a ∈ resolvedLinks s.links, ∃ b ∈ resolvedLinks s.links,
            b.1 = a.2 ∧ b.2 ≠ a.1 ∧ b.2 ≠ a.2 ∧
            ((a.1 ∈ ids ∧ b.2 = n) ∨ (a.1 = n ∧ b.2 ∈ ids))) ∧
          ¬∃ l ∈ resolvedLinks s.links,
            ((l.1 ∈ ids ∧ l.2 = n) ∨ (l.1 = n ∧ l.2 ∈ ids))) := by
    intro s ids n
    constructor
    · intro hrp
      simp only [relatedPasses, Bool.and_eq_true] at hrp
      obtain ⟨-, hB⟩ := hrp
      have hmin : sqlMin ((relatedJoinRows s ids n).map TCRow.distance) =
          some 2 := beq_iff_eq.1 hB
      have h2mem : (2 : Nat) ∈ (relatedJoinRows s ids n).map TCRow.distance :=
        sqlMin_mem _ 2 hmin
      rcases List.mem_map.1 h2mem with ⟨r, hrjoin, hrd⟩
      rw [relatedJoinRows] at hrjoin
      obtain ⟨hclo, hcond⟩ := List.mem_filter.1 hrjoin
      rcases (mem_transitiveClosureRows_two _ r).1 hclo with
        ⟨l, hl, rfl⟩ | ⟨a, ha, b, hb, hb1, hb2, hb3, rfl⟩
      · have hcontra : (1 : Nat) = 2 := hrd
        exact absurd hcontra (by decide)
      · refine ⟨⟨a, ha, b, hb, hb1, hb2, hb3, ?_⟩, ?_⟩
        · rcases (orb_eq_true_iff _ _).1 hcond with hc | hc
          · rcases (andb_eq_true_iff _ _).1 hc with ⟨ht, hs⟩
            exact Or.inl ⟨List.elem_iff.1 hs, beq_iff_eq.1 ht⟩
          · rcases (andb_eq_true_iff _ _).1 hc with ⟨ht, hs⟩
            exact Or.inr ⟨beq_iff_eq.1 ht, List.elem_iff.1 hs⟩
        · rintro ⟨l, hl, hor⟩
          have hbasejoin : (⟨l.1, l.2, 1, [l.1, l.2]⟩ : TCRow) ∈
              relatedJoinRows s ids n := by
            rw [relatedJoinRows]
            refine List.mem_filter.2
              ⟨(mem_transitiveClosureRows_two _ _).2 (Or.inl ⟨l, hl, rfl⟩), ?_⟩
            rcases hor with ⟨h1, h2⟩ | ⟨h1, h2⟩
            · exact (orb_eq_true_iff _ _).2 (Or.inl ((andb_eq_true_iff _ _).2
                ⟨beq_iff_eq.2 h2, List.elem_iff.2 h1⟩))
            · exact (orb_eq_true_iff _ _).2 (Or.inr ((andb_eq_true_iff _ _).2
                ⟨beq_iff_eq.2 h1, List.elem_iff.2 h2⟩))
          have h1mem : (1 : Nat) ∈ (relatedJoinRows s ids n).map TCRow.distance :=
            List.mem_map.2 ⟨_, hbasejoin, rfl⟩
          obtain ⟨m, hm, hle⟩ := sqlMin_le_of_mem _ 1 h1mem
          rw [hmin] at hm
          have hm2 : (2 : Nat) = m := by
            cases hm
            rfl
          omega
    · rintro ⟨⟨a, ha, b, hb, hb1, hb2, hb3, hor⟩, hno1⟩
      have hrow : (⟨a.1, b.2, 2, [a.1, a.2, b.2]⟩ : TCRow) ∈
          transitiveClosureRows (resolvedLinks s.links) 2 :=
        (mem_transitiveClosureRows_two _ _).2
          (Or.inr ⟨a, ha, b, hb, hb1, hb2, hb3, rfl⟩)
      have hcondrow : (((⟨a.1, b.2, 2, [a.1, a.2, b.2]⟩ : TCRow).target == n &&
            ids.contains (⟨a.1, b.2, 2, [a.1, a.2, b.2]⟩ : TCRow).source) ||
          ((⟨a.1, b.2, 2, [a.1, a.2, b.2]⟩ : TCRow).source == n &&
            ids.contains (⟨a.1, b.2, 2, [a.1, a.2, b.2]⟩ : TCRow).target))
            = true := by
        rcases hor with ⟨h1, h2⟩ | ⟨h1, h2⟩
        · exact (orb_eq_true_iff _ _).2 (Or.inl ((andb_eq_true_iff _ _).2
            ⟨beq_iff_eq.2 h2, List.elem_iff.2 h1⟩))
        · exact (orb_eq_true_iff _ _).2 (Or.inr ((andb_eq_true_iff _ _).2
            ⟨beq_iff_eq.2 h1, List.elem_iff.2 h2⟩))
      have hjoinmem : (⟨a.1, b.2, 2, [a.1, a.2, b.2]⟩ : TCRow) ∈
          relatedJoinRows s ids n := by
        rw [relatedJoinRows]
        exact List.mem_filter.2 ⟨hrow, hcondrow⟩
      have hall : ∀ d ∈ (relatedJoinRows s ids n).map TCRow.distance,
          2 ≤ d := by
        intro d hd
        rcases List.mem_map.1 hd with ⟨r, hrjoin, rfl⟩
        rw [relatedJoinRows] at hrjoin
        obtain ⟨hclo, hcond⟩ := List.mem_filter.1 hrjoin
        rcases (mem_transitiveClosureRows_two _ r).1 hclo with
          ⟨l, hl, rfl⟩ | ⟨a', ha', b', hb', -, -, -, rfl⟩
        · exfalso
          apply hno1
          rcases (orb_eq_true_iff _ _).1 hcond with hc | hc
          · rcases (andb_eq_true_iff _ _).1 hc with ⟨ht, hs⟩
            exact ⟨l, hl, Or.inl ⟨List.elem_iff.1 hs, beq_iff_eq.1 ht⟩⟩
          · rcases (andb_eq_true_iff _ _).1 hc with ⟨ht, hs⟩
            exact ⟨l, hl, Or.inr ⟨beq_iff_eq.1 ht, List.elem_iff.1 hs⟩⟩
        · exact Nat.le_refl 2
      have hmin : sqlMin ((relatedJoinRows s ids n).map TCRow.distance) =
          some 2 :=
        sqlMin_eq_of_min_mem _ 2 (List.mem_map.2 ⟨_, hjoinmem, rfl⟩) hall
      have hA : linkIdSelectContains (linkSourceRows s true 2) ids 0 n
          = true := by
        have hrowmem : (⟨a.1, some b.2, 2⟩ : LinkRow) ∈ linkSourceRows s true 2 :=
          List.mem_map.2 ⟨_, hrow, rfl⟩
        rw [linkIdSelectContains]
        rcases hor with ⟨h1, h2⟩ | ⟨h1, h2⟩
        · refine (orb_eq_true_iff _ _).2 (Or.inl ((andb_eq_true_iff _ _).2
            ⟨by decide, ?_⟩))
          refine List.any_eq_true.2 ⟨_, hrowmem, ?_⟩
          refine (andb_eq_true_iff _ _).2 ⟨?_, List.elem_iff.2 h1⟩
          show (some b.2 == some n) = true
          rw [h2]
          exact beq_self_eq_true _
        · refine (orb_eq_true_iff _ _).2 (Or.inr ((andb_eq_true_iff _ _).2
            ⟨by decide, ?_⟩))
          refine List.any_eq_true.2 ⟨_, hrowmem, ?_⟩
          refine (andb_eq_true_iff _ _).2 ⟨?_, ?_⟩
          · show (a.1 == n) = true
            rw [h1]
            exact beq_self_eq_true _
          · exact List.elem_iff.2 h2
      simp only [relatedPasses]
      rw [hA, hmin]
      rfl
  refine ⟨hiff, ?_, ?_, ?_, rfl, rfl⟩
  · intro s ids n l hmem hconn
    have hd1 : ∃ l' ∈ resolvedLinks s.links,
        ((l'.1 ∈ ids ∧ l'.2 = n) ∨ (l'.1 = n ∧ l'.2 ∈ ids)) := by
      rcases hconn with ⟨hsrc, htgt⟩ | ⟨hsrc, t, htgt, hcont⟩
      · exact ⟨(l.sourceId, n), mem_resolvedLinks s.links l n hmem htgt,
          Or.inl ⟨List.elem_iff.1 hsrc, rfl⟩⟩
      · exact ⟨(l.sourceId, t), mem_resolvedLinks s.links l t hmem htgt,
          Or.inr ⟨hsrc, List.elem_iff.1 hcont⟩⟩
    cases hrp : relatedPasses s ids n
    · rfl
    · exact absurd hd1 ((hiff s ids n).1 hrp).2
  · intro s s0
    cases hrp : relatedPasses s [s0] s0
    · rfl
    · obtain ⟨⟨a, -, b, -, -, hb2, -, hor⟩, -⟩ := (hiff s [s0] s0).1 hrp
      rcases hor with ⟨ha1, hbv⟩ | ⟨ha1, hbv⟩
      · rw [List.mem_singleton] at ha1
        exact absurd (hbv.trans ha1.symm) hb2
      · rw [List.mem_singleton] at hbv
        exact absurd (hbv.trans ha1.symm) hb2
  · intro opts h
    rcases Option.isSome_iff_exists.1 h with ⟨ps, hps⟩
    rw [effectiveMaxDistance, hps]

/-- C2 witness: the exact characterization at concrete graphs — on the
chain A→B→C, C passes Related(A) (a forward two-step path, no direct
link); in the shared-target graph, B (a direct neighbor) and the sole
seed A itself fail; and the chain query returns exactly {C}. -/
theorem C2_related_exact_directed_distance_two_witness :
    relatedPasses stChain3 [1] 3 = true ∧
    relatedPasses stShared [1] 2 = false ∧
    relatedPasses stShared [1] 1 = false ∧
    find eqGlob stChain3 { related := some ["a"] } = .ok [3] := by
  refine ⟨?_, ?_, ?_, C2_related_exact_directed_distance_two.2.2.2.2.1⟩
  · exact (C2_related_exact_directed_distance_two.1 stChain3 [1] 3).2
      ⟨⟨(1, 2), by decide, (2, 3), by decide, rfl, by decide, by decide,
        Or.inl ⟨by decide, rfl⟩⟩, by decide⟩
  · exact C2_related_exact_directed_distance_two.2.1 stShared [1] 2
      (plainLink 1 2 "b") (List.mem_cons_self _ _) (Or.inl ⟨rfl, rfl⟩)
  · exact C2_related_exact_directed_distance_two.2.2.1 stShared 1

/-- C2 counterexample: with links A→B and C→B, Related(A) returns no rows
at all — in particular it does not return {C} as claimed: C sits at
undirected distance 2 from A but on no directed path from or into A. -/
theorem C2_counterexample :
    find eqGlob stShared { related := some ["a"] } = .ok [] ∧
    (3 : Nat) ∉ ([] : List Nat) := ⟨rfl, by decide⟩

/-! ## C5 -/

/-- If any tag argument compiles to a negated group holding several
patterns, the whole compilation fails (the loop aborts at that group). -/
theorem compileTagFilters_error_of_group (tagsArgs : List String) :
    ∀ (acc : List TagGroup) (tagsArg : String) (g : TagGroup),
      tagsArg ∈ tagsArgs → compileTagGroup tagsArg = some g →
      g.negate = true → 1 < g.globs.length →
      ∃ e, compileTagFilters tagsArgs acc = .error e := by
  induction tagsArgs with
  | nil => intro acc t g h; cases h
  | cons a rest ih =>
    intro acc tagsArg g hmem hg hneg hlen
    rw [compileTagFilters]
    rcases List.mem_cons.1 hmem with rfl | hmem
    · rw [hg]
      show ∃ e, (if (g.negate && decide (g.globs.length > 1)) = true
          then Except.error ("cannot negate a tag in a OR group: " ++ tagsArg)
          else compileTagFilters rest (acc ++ [g])) = Except.error e
      rw [hneg, decide_eq_true hlen]
      exact ⟨_, rfl⟩
    · cases hca : compileTagGroup a with
      | none => exact ih acc tagsArg g hmem hg hneg hlen
      | some g' =>
        show ∃ e, (if (g'.negate && decide (g'.globs.length > 1)) = true
            then Except.error ("cannot negate a tag in a OR group: " ++ a)
            else compileTagFilters rest (acc ++ [g'])) = Except.error e
        split
        · exact ⟨_, rfl⟩
        · exact ih _ tagsArg g hmem hg hneg hlen

/-- C5: a negated pattern OR-combined with another pattern in the same tag
group makes the query fail with an invalid-query error, while a group
holding a single negated pattern excludes every note carrying a tag that
matches the pattern. -/
theorem C5_tag_negation_rules (gm : String → String → Bool) (s : Store) :
    (∀ (opts : FinderOpts) (tagsArgs : List String) (tagsArg : String)
        (g : TagGroup),
      opts.tags = some tagsArgs → tagsArg ∈ tagsArgs →
      compileTagGroup tagsArg = some g → g.negate = true → 1 < g.globs.length →
      ∃ e, findRows gm s opts = .error e) ∧
    (∀ (opts : FinderOpts) (pat glob : String) (res : List Nat)
        (n : StoredNote) (cid : Nat) (c : Collection),
      opts.tags = some [pat] → compileTagGroup pat = some ⟨true, [glob]⟩ →
      (n.id, cid) ∈ s.notesCollections → c ∈ s.collections → c.id = cid →
      c.kind = "tag" → gm glob c.name = true →
      findRows gm s opts = .ok res → n.id ∉ res) := by
  constructor
  · intro opts tagsArgs tagsArg g hopts hmem hg hneg hlen
    obtain ⟨e, he⟩ :=
      compileTagFilters_error_of_group tagsArgs [] tagsArg g hmem hg hneg hlen
    have hcg : compiledTagGroups opts = .error e := by
      rw [compiledTagGroups, hopts]
      exact he
    rw [findRows, hcg]
    exact ⟨e, rfl⟩
  · intro opts pat glob res n cid c hopts hpat hassoc hcoll hcid hkind hglob hok hres
    have hcg : compiledTagGroups opts = .ok [⟨true, [glob]⟩] := by
      rw [compiledTagGroups, hopts]
      show compileTagFilters [pat] [] = _
      rw [compileTagFilters, hpat]
      rfl
    rw [findRows, hcg] at hok
    -- the note's id is in the negated group's select
    have hinset : ((tagGroupSelect gm s ⟨true, [glob]⟩).contains n.id) = true := by
      refine List.elem_iff.2 ?_
      rw [tagGroupSelect]
      refine List.mem_filterMap.2 ⟨(n.id, cid), hassoc, ?_⟩
      have hany : s.collections.any (fun c' =>
          c'.id == (n.id, cid).2 && c'.kind == "tag" &&
            [glob].any fun p => gm p c'.name) = true := by
        refine List.any_eq_true.2 ⟨c, hcoll, ?_⟩
        simp [hcid, hkind, hglob]
      rw [if_pos hany]
    have hpassfalse : tagGroupPasses gm s ⟨true, [glob]⟩ n.id = false := by
      rw [tagGroupPasses, hinset]
      rfl
    -- hence the note fails the row filter
    have hok' : (if relatedSeedsEmpty s opts && !declaresJoinAlias s opts
        then (Except.error "no such column: l.distance" : Except String (List Nat))
        else .ok (passingRows gm s opts [⟨true, [glob]⟩])) = .ok res := hok
    clear hok
    split at hok'
    · cases hok'
    · cases hok'
      have hmemrows : n.id ∈ (s.notes.filter
          (notePasses gm s opts [⟨true, [glob]⟩])).map fun n => n.id := by
        simp only [passingRows] at hres
        by_cases hl : opts.limit > 0
        · rw [if_pos hl] at hres
          exact List.mem_of_mem_take hres
        · rw [if_neg hl] at hres
          exact hres
      rcases List.mem_map.1 hmemrows with ⟨n', hn', hid⟩
      have hpass := (List.mem_filter.1 hn').2
      have hn'false : notePasses gm s opts [⟨true, [glob]⟩] n' = false := by
        have hall : ([⟨true, [glob]⟩] : List TagGroup).all
            (fun g => tagGroupPasses gm s g n'.id) = false := by
          have : tagGroupPasses gm s ⟨true, [glob]⟩ n'.id = false := by
            rw [hid]; exact hpassfalse
          simp [this]
        rw [notePasses, hall]
        simp
      rw [hpass] at hn'false
      cases hn'false

/-- C5 witness: `Tag(["foo OR -bar"])` fails and `Tag(["-foo"])` excludes
the note tagged `foo` (the result is just the untagged note 2). -/
theorem C5_tag_negation_rules_witness :
    (∃ e, findRows eqGlob stTag { tags := some ["foo OR -bar"] } = .error e) ∧
    (1 : Nat) ∉ ([2] : List Nat) := by
  constructor
  · exact (C5_tag_negation_rules eqGlob stTag).1 { tags := some ["foo OR -bar"] }
      ["foo OR -bar"] "foo OR -bar" ⟨true, ["foo", "bar"]⟩ rfl
      (List.mem_singleton.mpr rfl) rfl rfl (by decide)
  · exact (C5_tag_negation_rules eqGlob stTag).2 { tags := some ["-foo"] }
      "-foo" "foo" [2] (plainNote 1 "a" "A") 1 ⟨1, "tag", "foo"⟩ rfl rfl
      (List.mem_singleton.mpr rfl) (List.mem_singleton.mpr rfl) rfl rfl rfl rfl

/-! ## C6 -/

/-- `addLinks` never touches the `notes` table. -/
theorem addLinks_notes (s : Store) (id : NoteId) (note : NoteMeta) :
    (s.addLinks id note).notes = s.notes :=
  foldl_insertLink_notes note.links s id

/-- The backfill's per-row healing only rewrites the target id. -/
theorem healed_link_fields (id : NoteId) (path : String) (x : StoredLink) :
    ((if x.targetId == none && !x.external && likePrefix x.href path
      then { x with targetId := some id } else x) : StoredLink).sourceId = x.sourceId ∧
    ((if x.targetId == none && !x.external && likePrefix x.href path
      then { x with targetId := some id } else x) : StoredLink).title = x.title ∧
    ((if x.targetId == none && !x.external && likePrefix x.href path
      then { x with targetId := some id } else x) : StoredLink).href = x.href ∧
    ((if x.targetId == none && !x.external && likePrefix x.href path
      then { x with targetId := some id } else x) : StoredLink).external = x.external := by
  split <;> exact ⟨rfl, rfl, rfl, rfl⟩

/-- C6 (amended): `Update` fails with the not-found error when the path is
absent; otherwise it replaces the record's content fields (title, lead,
body, raw content, word count, metadata, checksum, modified) — keeping the
id, path, sortable path and creation timestamp — and fully replaces the
note's outbound links: every stored link of the note afterwards stems from
the fresh authored links, and every fresh authored link is stored. -/
theorem C6_update_replaces_fields_and_links (s : Store) (note : NoteMeta) :
    (s.findIdByPath note.path = 0 →
      s.update note = .error "note not found in the index") ∧
    (∀ s' id, s.update note = .ok (s', id) →
      (∀ old ∈ s.notes, old.path = note.path →
        { old with
            title := note.title, lead := note.lead, body := note.body,
            rawContent := note.rawContent, wordCount := note.wordCount,
            metadata := note.metadata, checksum := note.checksum,
            modified := note.modified } ∈ s'.notes) ∧
      (∀ l ∈ s'.links, l.sourceId = id →
        ∃ al ∈ note.links, l.title = al.title ∧ l.href = al.href ∧
          l.external = al.external) ∧
      (∀ al ∈ note.links, ∃ l ∈ s'.links, l.sourceId = id ∧
        l.title = al.title ∧ l.href = al.href ∧ l.external = al.external)) := by
  constructor
  · intro h
    simp [Store.update, h, NoteId.isValid]
  · intro s' id hupd
    rw [Store.update] at hupd
    split at hupd
    · cases hupd
    · cases hupd
      set id0 := s.findIdByPath note.path with hid0
      set mid := (s.execUpdateStmt note).removeLinks id0 with hmid
      obtain ⟨rest, heq, hall, hexist⟩ := foldl_insertLink_links note.links mid id0
      have hlinksrw : (mid.addLinks id0 note).links =
          ((note.links.foldl (fun acc l => acc.insertLink id0 l) mid).links).map
            (fun r => if r.targetId == none && !r.external &&
                likePrefix r.href note.path
              then { r with targetId := some id0 } else r) := rfl
      refine ⟨?_, ?_, ?_⟩
      · intro old hold hpath
        have hnotes : (mid.addLinks id0 note).notes =
            (s.execUpdateStmt note).notes := addLinks_notes mid id0 note
        rw [hnotes]
        refine List.mem_map.2 ⟨old, hold, ?_⟩
        have hcond : (old.path == note.path) = true := beq_iff_eq.mpr hpath
        simp [hcond]
      · intro l hl hsrc
        rw [hlinksrw, heq] at hl
        rcases List.mem_map.1 hl with ⟨x, hx, hxl⟩
        obtain ⟨hxsrc, hxtitle, hxhref, hxext⟩ := healed_link_fields id0 note.path x
        rw [hxl] at hxsrc hxtitle hxhref hxext
        rcases List.mem_append.1 hx with hxmid | hxrest
        · have hkeep := (List.mem_filter.1 hxmid).2
          rw [← hxsrc] at hkeep
          rw [hsrc] at hkeep
          simp at hkeep
        · obtain ⟨hid, al, hal, h1, h2, h3⟩ := hall x hxrest
          exact ⟨al, hal, by rw [hxtitle, h1], by rw [hxhref, h2],
            by rw [hxext, h3]⟩
      · intro al hal
        obtain ⟨r, hr, hid, h1, h2, h3⟩ := hexist al hal
        refine ⟨(fun x : StoredLink => if x.targetId == none && !x.external &&
            likePrefix x.href note.path
          then { x with targetId := some id0 } else x) r, ?_, ?_⟩
        · rw [hlinksrw, heq]
          exact List.mem_map_of_mem _ (List.mem_append_right _ hr)
        · obtain ⟨hxsrc, hxtitle, hxhref, hxext⟩ :=
            healed_link_fields id0 note.path r
          exact ⟨by rw [hxsrc, hid], by rw [hxtitle, h1], by rw [hxhref, h2],
            by rw [hxext, h3]⟩

/-- C6 witness: updating an absent path fails, and updating `note-x`
replaces its content fields while its links are those of the fresh note
(none). -/
theorem C6_update_replaces_fields_and_links_witness :
    Store.empty.update noteX2 = .error "note not found in the index" ∧
    { oldRowX with
        title := noteX2.title, lead := noteX2.lead,
        body := noteX2.body, rawContent := noteX2.rawContent,
        wordCount := noteX2.wordCount, metadata := noteX2.metadata,
        checksum := noteX2.checksum, modified := noteX2.modified } ∈
      (((storeX.execUpdateStmt noteX2).removeLinks 1).addLinks 1 noteX2).notes := by
  constructor
  · exact (C6_update_replaces_fields_and_links Store.empty noteX2).1 rfl
  · exact ((C6_update_replaces_fields_and_links storeX noteX2).2 _ 1 rfl).1
      oldRowX (List.mem_singleton.mpr rfl) rfl

/-- C6 counterexample: Update does NOT replace every field of the record —
the creation timestamp is kept.  Updating `note-x` with `created = 99`
leaves the stored row's `created` at its original 0. -/
theorem C6_counterexample :
    noteX2.created = 99 ∧
    (match storeX.update noteX2 with
     | .ok (s', _) => s'.notes.map StoredNote.created
     | .error _ => []) = [0] := ⟨rfl, rfl⟩

/-! ## C7 -/

/-- Every id the path-prefix resolution returns is the id of a stored
note. -/
theorem mem_findIdsByPathPrefixes (s : Store) (paths : List String) :
    ∀ id ∈ Store.findIdsByPathPrefixes s paths, ∃ n ∈ s.notes, n.id = id := by
  suffices h : ∀ (ps : List String) (init : List NoteId),
      (∀ id ∈ init, ∃ n ∈ s.notes, n.id = id) →
      ∀ id ∈ ps.foldl (fun ids p =>
        let id := s.findIdByPathPrefix p
        if id.isValid then ids ++ [id] else ids) init,
      ∃ n ∈ s.notes, n.id = id by
    exact h paths [] (by simp)
  intro ps
  induction ps with
  | nil => intro init hinit id hid; exact hinit id hid
  | cons p rest ih =>
    intro init hinit id hid
    rw [List.foldl_cons] at hid
    refine ih _ ?_ id hid
    intro id' hid'
    simp only at hid'
    split at hid'
    · rename_i hval
      rcases List.mem_append.1 hid' with h | h
      · exact hinit id' h
      · rw [List.mem_singleton] at h
        subst h

        cases hf : s.notes.find? (fun n => likePrefix p n.path) with
        | none =>
          rw [Store.findIdByPathPrefix, hf] at hval
          cases hval
        | some n =>
          refine ⟨n, List.mem_of_find?_eq_some hf, ?_⟩
          rw [Store.findIdByPathPrefix, hf]
    · exact hinit id' hid'

/-- C7: when at least one mentioned path resolves, mention expansion
returns a derived FinderOpts whose match expression is the previous one
AND'd (by FTS5 juxtaposition) with the parenthesised OR group of the
resolved notes' quoted titles and aliases (a string alias or a list of
aliases, via `rowTitles`), whose exclude-id set additionally holds every
resolved id, and whose every other field is unchanged — the original
criteria value is not mutated, a new one is produced. -/
theorem C7_mention_expansion (s : Store) (opts : FinderOpts)
    (mention : List String) (hm : opts.mention = some mention)
    (hne : Store.findIdsByPathPrefixes s mention ≠ []) :
    ∃ opts', expandMentionsIntoMatch s opts = .ok opts' ∧
      opts'.matchExpr = some (opts.matchExpr.getD "" ++ " (" ++
        String.intercalate " OR "
          ((s.notes.filter fun n =>
            (Store.findIdsByPathPrefixes s mention).contains n.id).flatMap
            rowTitles) ++ ")") ∧
      opts'.excludeIds = some (opts.excludeIds.getD [] ++
        Store.findIdsByPathPrefixes s mention) ∧
      opts'.includePaths = opts.includePaths ∧
      opts'.excludePaths = opts.excludePaths ∧
      opts'.tags = opts.tags ∧
      opts'.linkedBy = opts.linkedBy ∧
      opts'.linkTo = opts.linkTo ∧
      opts'.related = opts.related ∧
      opts'.orphan = opts.orphan ∧
      opts'.sorters = opts.sorters ∧
      opts'.mention = opts.mention ∧
      opts'.limit = opts.limit := by
  have hie : (Store.findIdsByPathPrefixes s mention).isEmpty = false := by
    cases h : (Store.findIdsByPathPrefixes s mention).isEmpty
    · rfl
    · exact absurd (List.isEmpty_iff.1 h) hne
  obtain ⟨id0, hid0⟩ := List.exists_mem_of_ne_nil _ hne
  obtain ⟨n0, hn0, hn0id⟩ := mem_findIdsByPathPrefixes s mention id0 hid0
  have hn0f : n0 ∈ s.notes.filter fun n =>
      (Store.findIdsByPathPrefixes s mention).contains n.id :=
    List.mem_filter.2 ⟨hn0, by rw [hn0id]; exact List.elem_iff.2 hid0⟩
  have htmem : quoteTitle n0.title ∈ (s.notes.filter fun n =>
      (Store.findIdsByPathPrefixes s mention).contains n.id).flatMap rowTitles :=
    List.mem_flatMap.2 ⟨n0, hn0f, List.mem_cons_self _ _⟩
  have htne : ((s.notes.filter fun n =>
      (Store.findIdsByPathPrefixes s mention).contains n.id).flatMap
        rowTitles).isEmpty = false := by
    cases h : ((s.notes.filter fun n =>
        (Store.findIdsByPathPrefixes s mention).contains n.id).flatMap
          rowTitles).isEmpty
    · rfl
    · rw [List.isEmpty_iff.1 h] at htmem
      cases htmem
  simp only [expandMentionsIntoMatch, hm, hie, Bool.false_eq_true, if_false,
    htne]
  cases hex : opts.excludeIds with
  | none =>
    refine ⟨_, rfl, rfl, ?_, rfl, rfl, rfl, rfl, rfl, rfl, rfl, rfl, ?_, rfl⟩
    · simp [hex]
    · rfl
  | some ex =>
    refine ⟨_, rfl, rfl, ?_, rfl, rfl, rfl, rfl, rfl, rfl, rfl, rfl, ?_, rfl⟩
    · simp [hex]
    · rfl

/-- C7 witness: expanding `Mention(["note-x"])`, where note-x has alias
`nx`, yields the match expression ` ("note-x" OR "nx")` and excludes
note-x's id. -/
theorem C7_mention_expansion_witness :
    ∃ opts', expandMentionsIntoMatch storeX { mention := some ["note-x"] } =
        .ok opts' ∧
      opts'.matchExpr = some (((none : Option String)).getD "" ++ " (" ++
        String.intercalate " OR "
          ((storeX.notes.filter fun n =>
            (Store.findIdsByPathPrefixes storeX ["note-x"]).contains n.id).flatMap
            rowTitles) ++ ")") ∧
      opts'.excludeIds = some (((none : Option (List NoteId))).getD [] ++
        Store.findIdsByPathPrefixes storeX ["note-x"]) ∧
      opts'.includePaths = (none : Option (List String)) ∧
      opts'.excludePaths = (none : Option (List String)) ∧
      opts'.tags = (none : Option (List String)) ∧
      opts'.linkedBy = (none : Option LinkFilter) ∧
      opts'.linkTo = (none : Option LinkFilter) ∧
      opts'.related = (none : Option (List String)) ∧
      opts'.orphan = false ∧
      opts'.sorters = ([] : List Sorter) ∧
      opts'.mention = some ["note-x"] ∧
      opts'.limit = 0 :=
  C7_mention_expansion storeX { mention := some ["note-x"] } ["note-x"] rfl
    (by decide)

/-! ## C8 -/

/-- A linkedBy filter whose seeds resolve empty never constrains a row. -/
theorem linkFilterPasses_empty (s : Store) (filterPaths : List String)
    (direction : Int) (negate recursive : Bool) (maxDistance : Nat) (n : Nat)
    (hempty : Store.findIdsByPathPrefixes s filterPaths = []) :
    linkFilterPasses s filterPaths direction negate recursive maxDistance n = true := by
  rw [linkFilterPasses, hempty]
  rfl

/-- Removing a linkedBy filter whose seeds resolve empty does not change
whether a note passes the row filters. -/
theorem notePasses_erase_empty_linkedBy (gm : String → String → Bool)
    (s : Store) (opts : FinderOpts) (f : LinkFilter)
    (hlb : opts.linkedBy = some f)
    (hempty : Store.findIdsByPathPrefixes s f.paths = [])
    (tg : List TagGroup) (n : StoredNote) :
    notePasses gm s opts tg n =
      notePasses gm s { opts with linkedBy := none } tg n := by
  rcases hlt : opts.linkTo with _ | f' <;> rcases hrel : opts.related with _ | ps <;>
    simp [notePasses, hlb, hlt, hrel, effectiveMaxDistance,
      linkFilterPasses_empty s f.paths (-1) f.negate f.recursive _ n.id hempty]

/-- Removing a linkTo filter whose seeds resolve empty does not change
whether a note passes the row filters — provided no linkedBy filter is
present: the two filters share the `maxDistance` variable (linkTo's
assignment overwrites linkedBy's even when its seeds resolve empty), and
several link filters in one query fall outside the modelled fragment. -/
theorem notePasses_erase_empty_linkTo (gm : String → String → Bool)
    (s : Store) (opts : FinderOpts) (f : LinkFilter)
    (hlt : opts.linkTo = some f) (hnolb : opts.linkedBy = none)
    (hempty : Store.findIdsByPathPrefixes s f.paths = [])
    (tg : List TagGroup) (n : StoredNote) :
    notePasses gm s opts tg n =
      notePasses gm s { opts with linkTo := none } tg n := by
  rcases hrel : opts.related with _ | ps <;>
    simp [notePasses, hnolb, hlt, hrel, effectiveMaxDistance,
      linkFilterPasses_empty s f.paths 1 f.negate f.recursive _ n.id hempty]

/-- C8 (amended): a mention list none of whose paths resolves makes the
query fail with the mention-not-found error (before any row is produced);
a linkedBy or linkTo filter whose target paths resolve to an empty id set
degrades to a no-op — the query behaves exactly as if the filter were
absent; a Related filter with an empty resolved id set does NOT degrade to
a no-op: unless another link filter declared the join alias, the query
fails on the dangling `HAVING MIN(l.distance)` reference (see the
counterexample). -/
theorem C8_unresolved_filter_behaviour (gm : String → String → Bool) (s : Store) :
    (∀ (opts : FinderOpts) (mention : List String),
      opts.mention = some mention →
      Store.findIdsByPathPrefixes s mention = [] →
      find gm s opts = .error
        ("could not find notes at: " ++ String.intercalate "," mention)) ∧
    (∀ (opts : FinderOpts) (f : LinkFilter),
      opts.linkedBy = some f →
      Store.findIdsByPathPrefixes s f.paths = [] →
      findRows gm s opts = findRows gm s { opts with linkedBy := none }) ∧
    (∀ (opts : FinderOpts) (f : LinkFilter),
      opts.linkTo = some f → opts.linkedBy = none →
      Store.findIdsByPathPrefixes s f.paths = [] →
      findRows gm s opts = findRows gm s { opts with linkTo := none }) := by
  refine ⟨?_, ?_, ?_⟩
  · intro opts mention hm hempty
    have hexp : expandMentionsIntoMatch s opts = .error
        ("could not find notes at: " ++ String.intercalate "," mention) := by
      simp only [expandMentionsIntoMatch, hm, hempty]
      rfl
    rw [find, hexp]
  · intro opts f hlb hempty
    rw [findRows, findRows]
    have htg : compiledTagGroups { opts with linkedBy := none } =
        compiledTagGroups opts := rfl
    rw [htg]
    cases hc : compiledTagGroups opts with
    | error e => rfl
    | ok tg =>
      have hrse : relatedSeedsEmpty s { opts with linkedBy := none } =
          relatedSeedsEmpty s opts := rfl
      have hdja : declaresJoinAlias s { opts with linkedBy := none } =
          declaresJoinAlias s opts := by
        rw [declaresJoinAlias, declaresJoinAlias, hlb]
        simp [hempty]
      rw [hrse, hdja]
      have hpr : passingRows gm s { opts with linkedBy := none } tg =
          passingRows gm s opts tg := by
        simp only [passingRows]
        have hfil : s.notes.filter (notePasses gm s opts tg) =
            s.notes.filter (notePasses gm s { opts with linkedBy := none } tg) :=
          List.filter_congr fun n _ =>
            notePasses_erase_empty_linkedBy gm s opts f hlb hempty tg n
        rw [hfil]
      simp only [hpr]
  · intro opts f hlt hnolb hempty
    rw [findRows, findRows]
    have htg : compiledTagGroups { opts with linkTo := none } =
        compiledTagGroups opts := rfl
    rw [htg]
    cases hc : compiledTagGroups opts with
    | error e => rfl
    | ok tg =>
      have hrse : relatedSeedsEmpty s { opts with linkTo := none } =
          relatedSeedsEmpty s opts := rfl
      have hdja : declaresJoinAlias s { opts with linkTo := none } =
          declaresJoinAlias s opts := by
        rw [declaresJoinAlias, declaresJoinAlias, hlt]
        simp [hempty]
      rw [hrse, hdja]
      have hpr : passingRows gm s { opts with linkTo := none } tg =
          passingRows gm s opts tg := by
        simp only [passingRows]
        have hfil : s.notes.filter (notePasses gm s opts tg) =
            s.notes.filter (notePasses gm s { opts with linkTo := none } tg) :=
          List.filter_congr fun n _ =>
            notePasses_erase_empty_linkTo gm s opts f hlt hnolb hempty tg n
        rw [hfil]
      simp only [hpr]

/-- C8 witness: with only `note-x` indexed, `Mention(["zzz"])` fails with
the mention-not-found error, while linkedBy/linkTo filters on the
unresolvable path `zzz` leave the query's behaviour unchanged. -/
theorem C8_unresolved_filter_behaviour_witness :
    find eqGlob storeX { mention := some ["zzz"] } =
      .error "could not find notes at: zzz" ∧
    findRows eqGlob storeX { linkedBy := some ⟨["zzz"], false, false, 0⟩ } =
      findRows eqGlob storeX {} ∧
    findRows eqGlob storeX { linkTo := some ⟨["zzz"], false, false, 0⟩ } =
      findRows eqGlob storeX {} :=
  ⟨(C8_unresolved_filter_behaviour eqGlob storeX).1
      { mention := some ["zzz"] } ["zzz"] rfl rfl,
    (C8_unresolved_filter_behaviour eqGlob storeX).2.1
      { linkedBy := some ⟨["zzz"], false, false, 0⟩ } ⟨["zzz"], false, false, 0⟩
      rfl rfl,
    (C8_unresolved_filter_behaviour eqGlob storeX).2.2
      { linkTo := some ⟨["zzz"], false, false, 0⟩ } ⟨["zzz"], false, false, 0⟩
      rfl rfl rfl⟩

/-- C8 counterexample: a Related filter whose target paths resolve to no
note does not degrade to a no-op — the query fails (the appended `HAVING
MIN(l.distance) = 2` references the join alias `l` that was never
declared), refuting the claim that every link filter with an empty
resolved id set lets the query succeed. -/
theorem C8_counterexample :
    find eqGlob storeX { related := some ["zzz"] } =
      .error "no such column: l.distance" := rfl

end ZkSqlite
